import Mathlib

/-!
# Side-scrolling platformer (`game.js`): simulation core

A shallow embedding of the simulation core of `game.js`: the tile collision
resolver (`tileAt`, `collideWithWorld`), the per-frame `update` (player input,
jump counter, physics, coin pickup, enemy patrol and stomp/damage), `respawn`
and the procedural `generateLevel`.

Modelling conventions.

* JavaScript numbers are modelled by exact rationals (`ℚ`); rounding of
  floating-point arithmetic is not modelled.  Quantities that the source only
  ever produces through `Math.floor` (tile rows and columns) are `Int`.
* The module-level mutable variables (`COLS`, `tiles`, `coins`, `enemies`,
  `player`, `score`, `coinCount`, `coyote`) are the fields of `Game`, passed
  explicitly.
* `Math.random()` is a stream `Nat → Unit01` of numbers in `[0, 1)` together
  with a counter of the draws made so far.
* Particles, camera, HUD text, minimap and drawing only read the simulation
  state (or, for particles, only themselves) and are left out.
-/

namespace Mario

/-! ## World parameters and data model -/

/-- Source: `const TILE = 48`. -/
def TILE : ℚ := 48

/-- Source: `const ROWS = 10`. -/
def ROWS : Int := 10

/-- Source: `const MAX_JUMPS = 2`. -/
def MAX_JUMPS : Nat := 2

/-- Source: `GRAV = 0.8`. -/
def GRAV : ℚ := 0.8

/-- Source: `FRICTION = 0.85`. -/
def FRICTION : ℚ := 0.85

/-- Source: `MAXVX = 7`. -/
def MAXVX : ℚ := 7

/-- Source: `JUMP = 18`. -/
def JUMP : ℚ := 18

/-- An entry `{r, c}` of the `tiles` array. -/
structure Tile where
  r : Int
  c : Int
  deriving DecidableEq, Repr

/-- An entry `{x, y, r, collected}` of the `coins` array. -/
structure Coin where
  x : ℚ
  y : ℚ
  r : ℚ
  collected : Bool
  deriving DecidableEq, Repr

/-- The enemy kinds `'goomba'` and `'koopa'`. -/
inductive EnemyType where
  | goomba
  | koopa
  deriving DecidableEq, Repr

/-- An entry `{x, y, w, h, vx, alive, type}` of the `enemies` array. -/
structure Enemy where
  x : ℚ
  y : ℚ
  w : ℚ
  h : ℚ
  vx : ℚ
  alive : Bool
  type : EnemyType
  deriving DecidableEq, Repr

/-- A physics body as `collideWithWorld` sees it; the `player` object has
exactly these simulation fields (`frame` and `frameTimer` are only read by
drawing). -/
structure Entity where
  x : ℚ
  y : ℚ
  w : ℚ
  h : ℚ
  vx : ℚ
  vy : ℚ
  onGround : Bool
  dir : Int
  jumpCount : Nat
  deriving DecidableEq, Repr

/-- The module-level simulation state. -/
structure Game where
  COLS : Int
  tiles : List Tile
  coins : List Coin
  enemies : List Enemy
  player : Entity
  score : Int
  coinCount : Nat
  coyote : Int
  deriving DecidableEq, Repr

/-- The pressed-key state polled by `update`: `left` is
`KEYS['arrowleft'] || KEYS['a']`, `right` is `KEYS['arrowright'] || KEYS['d']`,
`jump` is `KEYS['z'] || KEYS['arrowup'] || KEYS[' ']`. -/
structure Keys where
  left : Bool
  right : Bool
  jump : Bool
  deriving DecidableEq, Repr

/-- The module-level initial values (`COLS = 600`, empty arrays, the `player`
literal, zero score). -/
def initial : Game :=
  { COLS := 600, tiles := [], coins := [], enemies := []
    player := { x := 120, y := 0, w := 40, h := 56, vx := 0, vy := 0
                onGround := false, dir := 1, jumpCount := 0 }
    score := 0, coinCount := 0, coyote := 0 }

/-! ## Collision helpers -/

/-- Source: `tileAt(px, py)`; out-of-grid queries are not solid, otherwise a
linear scan of the tile list. -/
def tileAt (COLS : Int) (tiles : List Tile) (px py : ℚ) : Bool :=
  let c : Int := ⌊px / TILE⌋
  let r : Int := ⌊py / TILE⌋
  if r < 0 ∨ r ≥ ROWS ∨ c < 0 ∨ c ≥ COLS then false
  else tiles.any (fun t => decide (t.r = r) && decide (t.c = c))

/-- The integers `lo, lo+1, ..., hi` in ascending order (empty when
`hi < lo`): the values taken by `for (let i = lo; i <= hi; i++)`. -/
def intRange (lo hi : Int) : List Int :=
  List.map (fun (i : Nat) => lo + (i : Int)) (List.range (hi - lo + 1).toNat)

/-- Source: `overlapX` of `collideWithWorld` against the tile in column `c`. -/
def overlapX (ent : Entity) (c : Int) : ℚ :=
  min (ent.x + ent.w) ((c : ℚ) * TILE + TILE) - max ent.x ((c : ℚ) * TILE)

/-- Source: `overlapY` of `collideWithWorld` against the tile in row `r`. -/
def overlapY (ent : Entity) (r : Int) : ℚ :=
  min (ent.y + ent.h) ((r : ℚ) * TILE + TILE) - max ent.y ((r : ℚ) * TILE)

/-- The body of the doubly nested loop of `collideWithWorld` for the cell
`(r, c)`.  `isPlayer` is the outcome of the test `ent === player`. -/
def resolveTile (COLS : Int) (tiles : List Tile) (isPlayer : Bool)
    (ent : Entity) (r c : Int) : Entity :=
  if r < 0 ∨ r ≥ ROWS ∨ c < 0 ∨ c ≥ COLS then ent
  else if tileAt COLS tiles ((c : ℚ) * TILE) ((r : ℚ) * TILE) then
    let tx : ℚ := (c : ℚ) * TILE
    let ty : ℚ := (r : ℚ) * TILE
    let oX : ℚ := overlapX ent c
    let oY : ℚ := overlapY ent r
    if oX > 0 ∧ oY > 0 then
      if oX < oY then
        if ent.x < tx then { ent with x := ent.x - oX, vx := 0 }
        else { ent with x := ent.x + oX, vx := 0 }
      else
        if ent.y < ty then
          { ent with y := ent.y - oY, vy := 0, onGround := true
                     jumpCount := if isPlayer then 0 else ent.jumpCount }
        else { ent with y := ent.y + oY, vy := 0 }
    else ent
  else ent

/-- Source: `collideWithWorld(ent)`.  The index window is computed once from
the entity on entry; the cells are visited rows outer, columns inner. -/
def collideWithWorld (COLS : Int) (tiles : List Tile) (isPlayer : Bool)
    (ent : Entity) : Entity :=
  let minC : Int := ⌊(ent.x - 2) / TILE⌋
  let maxC : Int := ⌊(ent.x + ent.w + 2) / TILE⌋
  let minR : Int := ⌊(ent.y - 2) / TILE⌋
  let maxR : Int := ⌊(ent.y + ent.h + 2) / TILE⌋
  (intRange minR maxR).foldl
    (fun (e : Entity) (r : Int) => (intRange minC maxC).foldl
      (fun (e : Entity) (c : Int) => resolveTile COLS tiles isPlayer e r c) e)
    { ent with onGround := false }

/-- Source: `rectIntersect(a, b)` with `a` the player and `b` an enemy. -/
def rectIntersect (a : Entity) (b : Enemy) : Bool :=
  !(decide (a.x + a.w < b.x) || decide (a.x > b.x + b.w)
    || decide (a.y + a.h < b.y) || decide (a.y > b.y + b.h))

/-! ## Respawn -/

/-- Source: `respawn()`. -/
def respawn (g : Game) : Game :=
  { g with
    player := { g.player with
      x := max 120 (g.player.x - 320)
      y := ((ROWS - 3 : Int) : ℚ) * TILE - g.player.h
      vx := 0
      vy := 0 }
    score := max 0 (g.score - 50) }

/-! ## The update loop -/

/-- Source, `update` lines 297-300: left/right input and the coyote counter. -/
def inputStep (k : Keys) (g : Game) : Game :=
  let p := g.player
  let p := if k.left then { p with vx := p.vx - 0.9, dir := -1 } else p
  let p := if k.right then { p with vx := p.vx + 0.9, dir := 1 } else p
  let coyote := max 0 (g.coyote - 1)
  let coyote := if p.onGround then 6 else coyote
  { g with player := p, coyote := coyote }

/-- Source, `update` lines 301-308: the jump-input step on the player. -/
def jumpStep (k : Keys) (p : Entity) : Entity :=
  if k.jump then
    if p.onGround || decide (p.jumpCount < MAX_JUMPS) then
      { p with vy := -JUMP, onGround := false, jumpCount := p.jumpCount + 1 }
    else p
  else p

/-- Source, `update` line 312: `player.vx *= FRICTION`. -/
def applyFriction (vx : ℚ) : ℚ := vx * FRICTION

/-- Source, `update` line 313: `Math.max(-MAXVX, Math.min(MAXVX, vx))`. -/
def clampVx (vx : ℚ) : ℚ := max (-MAXVX) (min MAXVX vx)

/-- Source, `update` lines 311-313: gravity, friction and the clamp of `vx`. -/
def frictionClampStep (p : Entity) : Entity :=
  { p with vy := p.vy + GRAV, vx := clampVx (applyFriction p.vx) }

/-- Source, `update` line 314: integrate the position by the velocity. -/
def integrateStep (p : Entity) : Entity :=
  { p with x := p.x + p.vx, y := p.y + p.vy }

/-- Source, `update` line 317: `if (player.y > ROWS*TILE + 300) respawn()`. -/
def fellStep (g : Game) : Game :=
  if g.player.y > (ROWS : ℚ) * TILE + 300 then respawn g else g

/-- Source, `update` lines 324-326: the pickup test
`Math.hypot(dx, dy) < c.r + Math.max(player.w, player.h)/4`.  Over exact
numbers `hypot(dx, dy) < R` is `0 < R` and `dx² + dy² < R²`. -/
def coinNear (p : Entity) (c : Coin) : Bool :=
  let dx : ℚ := (p.x + p.w / 2) - c.x
  let dy : ℚ := (p.y + p.h / 2) - c.y
  let R : ℚ := c.r + max p.w p.h / 4
  decide (0 < R) && decide (dx * dx + dy * dy < R * R)

/-- Source, `update` lines 322-329: the coin loop, threading `score` and
`coinCount`; returns the coins, the score and the coin counter. -/
def pickupCoins (p : Entity) : List Coin → Int → Nat → List Coin × Int × Nat
  | [], score, n => ([], score, n)
  | c :: cs, score, n =>
    if c.collected then
      let rest := pickupCoins p cs score n
      (c :: rest.1, rest.2.1, rest.2.2)
    else if coinNear p c then
      let rest := pickupCoins p cs (score + 10) (n + 1)
      ({ c with collected := true } :: rest.1, rest.2.1, rest.2.2)
    else
      let rest := pickupCoins p cs score n
      (c :: rest.1, rest.2.1, rest.2.2)

/-- The coin loop on the whole state. -/
def coinStep (g : Game) : Game :=
  let res := pickupCoins g.player g.coins g.score g.coinCount
  { g with coins := res.1, score := res.2.1, coinCount := res.2.2 }

/-- Source, `update` lines 334-337: an alive enemy's patrol move, the ledge
check and the wall check. -/
def enemyMove (COLS : Int) (tiles : List Tile) (e : Enemy) : Enemy :=
  let e := { e with x := e.x + e.vx }
  let aheadX : ℚ := if e.vx < 0 then e.x - 4 else e.x + e.w + 4
  let e := if !tileAt COLS tiles aheadX (e.y + e.h + 6) then { e with vx := e.vx * -1 } else e
  let e :=
    if tileAt COLS tiles (e.x + (if e.vx < 0 then -4 else e.w + 4)) e.y then
      { e with vx := e.vx * -1 }
    else e
  e

/-- Source, `update` lines 333-345: the body of the enemy loop for one enemy;
returns the enemy and the state (player and score may change). -/
def enemyStep (g : Game) (e : Enemy) : Enemy × Game :=
  if !e.alive then (e, g)
  else
    let e := enemyMove g.COLS g.tiles e
    if rectIntersect g.player e then
      if g.player.vy > 0 ∧ g.player.y + g.player.h - e.y < 18 then
        ({ e with alive := false },
         { g with player := { g.player with vy := -8 }, score := g.score + 100 })
      else (e, respawn g)
    else (e, g)

/-- Source, `update` lines 332-346: the enemy loop in array order. -/
def enemiesLoop : List Enemy → Game → List Enemy × Game
  | [], g => ([], g)
  | e :: es, g =>
    let r := enemyStep g e
    let rest := enemiesLoop es r.2
    (r.1 :: rest.1, rest.2)

/-- The enemy loop on the whole state. -/
def enemyPhase (g : Game) : Game :=
  let res := enemiesLoop g.enemies g
  { res.2 with enemies := res.1 }

/-- Source, `update` lines 297-319: input, jump, physics, fall check and
collision of the player with the world, in source order. -/
def movePhase (k : Keys) (g : Game) : Game :=
  let g := inputStep k g
  let g := { g with player := jumpStep k g.player }
  let g := { g with player := integrateStep (frictionClampStep g.player) }
  let g := fellStep g
  { g with player := collideWithWorld g.COLS g.tiles true g.player }

/-- Source, `update` lines 297-329: the player's movement followed by the
coin loop. -/
def playerPhase (k : Keys) (g : Game) : Game :=
  coinStep (movePhase k g)

/-- Source: `update()`: the player phase followed by the enemy loop. -/
def update (k : Keys) (g : Game) : Game :=
  enemyPhase (playerPhase k g)

/-! ## Level generator -/

/-- A value returned by `Math.random()`: a number in `[0, 1)`. -/
structure Unit01 where
  val : ℚ
  nonneg : 0 ≤ val
  lt_one : val < 1

/-- The random source: the `i`-th call of `Math.random()` returns `rnd i`. -/
abbrev Rand := Nat → Unit01

/-- Working state of `generateLevel`: the number of random draws made so far,
the cells of the working `grid` that hold `'#'`, and the `coins` array. -/
structure Gen where
  k : Nat
  grid : List Tile
  coins : List Coin

/-- Source: `cols|0` on an integer argument (conversion to a signed 32-bit
integer). -/
def toInt32 (n : Int) : Int := (n + 2 ^ 31) % 2 ^ 32 - 2 ^ 31

/-- Source: `COLS = Math.max(80, Math.min(3000, cols|0))`. -/
def clampCols (cols : Int) : Int := max 80 (min 3000 (toInt32 cols))

/-- Source: `const groundRow = ROWS - 2`. -/
def groundRow : Int := ROWS - 2

/-- A segment coin `{x: c*TILE + TILE/2, y: r*TILE - TILE/2, r: 10}`. -/
def coinAt (c r : Int) : Coin :=
  { x := (c : ℚ) * TILE + TILE / 2, y := (r : ℚ) * TILE - TILE / 2, r := 10
    collected := false }

/-- Source, `generateLevel` lines 147-155: the ground loop from column `c`.
The first argument bounds the number of loop tests (`none` when it runs out). -/
def groundLoop (COLS : Int) (rnd : Rand) : Nat → Int → Gen → Option Gen
  | 0, _, _ => none
  | fuel + 1, c, s =>
    if c < COLS then
      if c < 6 then
        groundLoop COLS rnd fuel (c + 1) { s with grid := ⟨groundRow, c⟩ :: s.grid }
      else if (rnd s.k).val < 0.03 ∧ c > 12 ∧ c < COLS - 12 then
        let gap : Int := 1 + ⌊(rnd (s.k + 1)).val * 2⌋
        groundLoop COLS rnd fuel (c + (gap - 1) + 1) { s with k := s.k + 2 }
      else
        groundLoop COLS rnd fuel (c + 1)
          { s with k := s.k + 1, grid := ⟨groundRow, c⟩ :: s.grid }
    else some s

/-- Source, lines 163-168: the floating-platform loop from index `i`; the loop
test draws a fresh random bound every time it is evaluated. -/
def platformLoop (rnd : Rand) (x segLen : Int) : Nat → Int → Gen → Option Gen
  | 0, _, _ => none
  | fuel + 1, i, s =>
    if i < ⌊1 + (rnd s.k).val * 4⌋ then
      let c : Int := x + ⌊(rnd (s.k + 1)).val * (segLen : ℚ)⌋
      let r : Int := groundRow - (2 + ⌊(rnd (s.k + 2)).val * 3⌋)
      let grid := if r > 0 then ⟨r, c⟩ :: s.grid else s.grid
      let coins := if (rnd (s.k + 3)).val < 0.6 then s.coins ++ [coinAt c r] else s.coins
      platformLoop rnd x segLen fuel (i + 1) { k := s.k + 4, grid := grid, coins := coins }
    else some { s with k := s.k + 1 }

/-- Source, lines 171-176: the staircase segment at `x`. -/
def staircase (COLS : Int) (rnd : Rand) (x segLen : Int) (s : Gen) : Gen :=
  let h : Int := 1 + ⌊(rnd s.k).val * 4⌋
  (intRange 0 (min segLen (COLS - x) - 1)).foldl
    (fun (s : Gen) (i : Int) =>
      let c : Int := x + i
      let r : Int := groundRow - min h (i / 2)
      { k := s.k + 1
        grid := ⟨r, c⟩ :: s.grid
        coins := if (rnd s.k).val < 0.25 then s.coins ++ [coinAt c r] else s.coins })
    { s with k := s.k + 1 }

/-- Source, lines 179-183: the block-band segment at `x`. -/
def blockBand (COLS : Int) (rnd : Rand) (x segLen : Int) (s : Gen) : Gen :=
  let r : Int := groundRow - (2 + ⌊(rnd s.k).val * 2⌋)
  (intRange x (min (COLS - 4) (x + segLen) - 1)).foldl
    (fun (s : Gen) (c : Int) =>
      { k := s.k + 2
        grid := if (rnd s.k).val < 0.8 then ⟨r, c⟩ :: s.grid else s.grid
        coins := if (rnd (s.k + 1)).val < 0.3 then s.coins ++ [coinAt c r] else s.coins })
    { s with k := s.k + 1 }

/-- Source, lines 186-188: the scattered-coins segment at `x` (every third
column from `x`). -/
def scatteredCoins (COLS : Int) (rnd : Rand) (x segLen : Int) (s : Gen) : Gen :=
  ((intRange x (min (COLS - 4) (x + segLen) - 1)).filter (fun c => (c - x) % 3 = 0)).foldl
    (fun (s : Gen) (c : Int) =>
      { s with
        k := s.k + 1
        coins := if (rnd s.k).val < 0.45 then s.coins ++ [coinAt c (groundRow - 1)]
                 else s.coins })
    s

/-- Source, lines 158-190: the platforms/blocks loop from column `x`. -/
def segmentLoop (COLS : Int) (rnd : Rand) : Nat → Int → Gen → Option Gen
  | 0, _, _ => none
  | fuel + 1, x, s =>
    if x < COLS - 8 then
      let seg : Int := ⌊(rnd s.k).val * 4⌋
      let segLen : Int := ⌊4 + (rnd (s.k + 1)).val * 14⌋
      let s := { s with k := s.k + 2 }
      let body : Option Gen :=
        if seg = 0 then platformLoop rnd x segLen 5 0 s
        else if seg = 1 then some (staircase COLS rnd x segLen s)
        else if seg = 2 then some (blockBand COLS rnd x segLen s)
        else some (scatteredCoins COLS rnd x segLen s)
      match body with
      | none => none
      | some s =>
        segmentLoop COLS rnd fuel (x + ⌊4 + (rnd s.k).val * 10⌋) { s with k := s.k + 1 }
    else some s

/-- Source, lines 193-197: the occupied cells of the grid with `0 ≤ r < ROWS`
and `0 ≤ c < COLS`, rows outer, columns inner. -/
def flatten (COLS : Int) (grid : List Tile) : List Tile :=
  ((intRange 0 (ROWS - 1)).map (fun r =>
    ((intRange 0 (COLS - 1)).filter (fun c => decide ((⟨r, c⟩ : Tile) ∈ grid))).map
      (fun c => (⟨r, c⟩ : Tile)))).flatten

/-- Source, lines 202-210: one spawned enemy, using the draws `k`, `k+1`,
`k+2`.  `groundFound ? groundFound : ROWS - 2` also falls back when the row
found is `0`. -/
def spawnEnemy (COLS : Int) (rnd : Rand) (grid : List Tile) (k : Nat) : Enemy :=
  let WORLD_W : ℚ := (COLS : ℚ) * TILE
  let x : ℚ := 240 + ((⌊(rnd k).val * (WORLD_W - 480)⌋ : Int) : ℚ)
  let col : Int := ⌊x / TILE⌋
  let groundFound : Option Int :=
    (intRange 0 (ROWS - 1)).find? (fun r => decide ((⟨r, col⟩ : Tile) ∈ grid))
  let row : Int :=
    match groundFound with
    | some r => if r ≠ 0 then r else ROWS - 2
    | none => ROWS - 2
  { x := x, y := (row : ℚ) * TILE - 34, w := 32, h := 34
    vx := -0.6 - (rnd (k + 2)).val * 0.6, alive := true
    type := if (rnd (k + 1)).val < 0.7 then EnemyType.goomba else EnemyType.koopa }

/-- Source: `enemyCount = Math.max(24, Math.floor(COLS / 8))`. -/
def enemyCount (COLS : Int) : Nat := (max 24 (COLS / 8)).toNat

/-- Source, lines 214-216: the ground coins, every fourth column from 6. -/
def groundCoins (COLS : Int) (rnd : Rand) (s : Gen) : Gen :=
  ((intRange 6 (COLS - 6 - 1)).filter (fun c => (c - 6) % 4 = 0)).foldl
    (fun (s : Gen) (c : Int) =>
      { s with
        k := s.k + 1
        coins :=
          if (rnd s.k).val < 0.35 then
            s.coins ++ [{ x := (c : ℚ) * TILE + TILE / 2,
                          y := (((ROWS - 2 : Int) : ℚ) - 0.6) * TILE,
                          r := 10, collected := false }]
          else s.coins })
    s

/-- Source: `generateLevel(cols)`.  `none` only when a loop bound of the model
runs out (`generateLevel_spec` shows it never does).  The player keeps
`onGround`, `dir` and `jumpCount`; `coyote` is untouched. -/
def generateLevel (cols : Int) (rnd : Rand) (g : Game) : Option Game :=
  let COLS := clampCols cols
  match groundLoop COLS rnd (COLS.toNat + 1) 0 { k := 0, grid := [], coins := [] } with
  | none => none
  | some s =>
    match segmentLoop COLS rnd (COLS.toNat + 1) 8 s with
    | none => none
    | some s =>
      let tiles := flatten COLS s.grid
      let n := enemyCount COLS
      let enemies := (List.range n).map (fun i => spawnEnemy COLS rnd s.grid (s.k + 3 * i))
      let s := groundCoins COLS rnd { s with k := s.k + 3 * n }
      some
        { COLS := COLS
          tiles := tiles
          coins := s.coins
          enemies := enemies
          player := { g.player with
            x := 120
            y := ((ROWS - 3 : Int) : ℚ) * TILE - g.player.h
            vx := 0
            vy := 0 }
          score := 0
          coinCount := 0
          coyote := g.coyote }

/-! ## Single-tile resolution -/

/-- The cell `t` lies in the grid `[0, ROWS) × [0, COLS)`. -/
def InGrid (COLS : Int) (t : Tile) : Prop :=
  0 ≤ t.r ∧ t.r < ROWS ∧ 0 ≤ t.c ∧ t.c < COLS

instance (COLS : Int) (t : Tile) : Decidable (InGrid COLS t) :=
  inferInstanceAs (Decidable (0 ≤ t.r ∧ t.r < ROWS ∧ 0 ≤ t.c ∧ t.c < COLS))

/-- The entity has positive overlap with the tile `t` on both axes. -/
def Overlaps (ent : Entity) (t : Tile) : Prop :=
  overlapX ent t.c > 0 ∧ overlapY ent t.r > 0

instance (ent : Entity) (t : Tile) : Decidable (Overlaps ent t) :=
  inferInstanceAs (Decidable (overlapX ent t.c > 0 ∧ overlapY ent t.r > 0))

/-- The resolution against the single tile `(r, c)` as the specification
words it: along the axis of smaller overlap, horizontally (left when
`ent.x < tile x`, otherwise right, `vx = 0`, `onGround = false`) when
`overlapX < overlapY`, otherwise vertically (`vy = 0`, and `onGround = true`
with the player's `jumpCount = 0` exactly when `ent.y < tile y`). -/
def resolveOnce (isPlayer : Bool) (ent : Entity) (r c : Int) : Entity :=
  if overlapX ent c < overlapY ent r then
    { ent with
      x := if ent.x < (c : ℚ) * TILE then ent.x - overlapX ent c else ent.x + overlapX ent c
      vx := 0
      onGround := false }
  else
    { ent with
      y := if ent.y < (r : ℚ) * TILE then ent.y - overlapY ent r else ent.y + overlapY ent r
      vy := 0
      onGround := decide (ent.y < (r : ℚ) * TILE)
      jumpCount := if isPlayer ∧ ent.y < (r : ℚ) * TILE then 0 else ent.jumpCount }

/-- The player body standing in a one-tile-high corridor: the ceiling tile
`(4, 1)` overlaps it by 8, the floor tile `(6, 1)` only touches it. -/
def corridorPlayer : Entity :=
  { x := 48, y := 232, w := 40, h := 56, vx := 0, vy := 0
    onGround := false, dir := 1, jumpCount := 1 }

/-- The ceiling and floor tiles of the corridor. -/
def corridorTiles : List Tile := [⟨4, 1⟩, ⟨6, 1⟩]

/-- The player body at the respawn height `(ROWS - 3) * TILE - h = 280`,
horizontally aligned with the tile `(6, 3)`. -/
def embeddedPlayer : Entity :=
  { x := 144, y := 280, w := 40, h := 56, vx := 0, vy := 0
    onGround := false, dir := 1, jumpCount := 0 }

/-- The player body sunk 4 units into the floor tile `(6, 1)`. -/
def sunkPlayer : Entity :=
  { x := 50, y := 236, w := 40, h := 56, vx := 1, vy := 4
    onGround := false, dir := 1, jumpCount := 2 }

/-- The number of positions at which the coin is uncollected in the first list
and collected in the second. -/
def newlyCollected : List Coin → List Coin → Nat
  | a :: as, b :: bs =>
    (if !a.collected && b.collected then 1 else 0) + newlyCollected as bs
  | _, _ => 0

/-- A falling player just above an enemy (penetration depth 6). -/
def stompGame : Game :=
  { initial with player := { initial.player with vy := 2 } }

/-- An enemy whose top edge is at `y = 50`. -/
def stompEnemy : Enemy :=
  { x := 130, y := 50, w := 32, h := 34, vx := -0.6, alive := true, type := .goomba }

/-- An enemy walking left on a ledge with a wall tile `(2, 2)` right behind
it: nothing below-left of it, a solid tile at its height to its right. -/
def ledgeGame : Game :=
  { initial with
    tiles := [⟨2, 2⟩]
    enemies := [{ x := 100, y := 100, w := 32, h := 34, vx := -0.6, alive := true
                  type := .goomba }] }

/-- The same enemy without the wall tile. -/
def openLedgeGame : Game :=
  { initial with
    enemies := [{ x := 100, y := 100, w := 32, h := 34, vx := -0.6, alive := true
                  type := .goomba }] }

/-- The draw `1/2`. -/
def drawHalf : Unit01 := ⟨1 / 2, by norm_num, by norm_num⟩

/-- The draw `1/100` (below the gap threshold `0.03`). -/
def drawLow : Unit01 := ⟨1 / 100, by norm_num, by norm_num⟩

/-- The draw `0`. -/
def drawZero : Unit01 := ⟨0, by norm_num, by norm_num⟩

/-- The draw `15/16`. -/
def drawHigh : Unit01 := ⟨15 / 16, by norm_num, by norm_num⟩

/-- A random outcome cutting two ground gaps one right after the other: every
draw is `1/2` except draws 14 and 16 (the gap tests at columns 20 and 22),
which are `1/100`. -/
def gapRnd : Rand := fun i => if i = 14 ∨ i = 16 then drawLow else drawHalf

/-- A random outcome that reaches `x = 71` in the platforms loop and picks a
floating platform there: every draw is `1/2` except draw 256 (`seg = 0`),
which is `0`, and draws 257 (`segLen = 17`) and 259 (column offset 15), which
are `15/16`. -/
def platformRnd : Rand := fun i =>
  if i = 256 then drawZero else if i = 257 ∨ i = 259 then drawHigh else drawHalf

/-- Source, `generateLevel` lines 147-155: the gaps cut by the ground loop from
column `c` with `k` draws made, as pairs (first column, length).  It follows
the control flow of `groundLoop` and records each pass through the gap branch
(`Math.random() < 0.03 && c > 12 && c < COLS - 12`) with its
`gap = 1 + Math.floor(Math.random()*2)`. -/
def groundGaps (COLS : Int) (rnd : Rand) : Nat → Int → Nat → List (Int × Int)
  | 0, _, _ => []
  | fuel + 1, c, k =>
    if c < COLS then
      if c < 6 then groundGaps COLS rnd fuel (c + 1) k
      else if (rnd k).val < 0.03 ∧ c > 12 ∧ c < COLS - 12 then
        let gap : Int := 1 + ⌊(rnd (k + 1)).val * 2⌋
        (c, gap) :: groundGaps COLS rnd fuel (c + (gap - 1) + 1) (k + 2)
      else groundGaps COLS rnd fuel (c + 1) (k + 1)
    else []

/-- The gaps cut by the whole ground loop of `generateLevel`. -/
def cutGaps (COLS : Int) (rnd : Rand) : List (Int × Int) :=
  groundGaps COLS rnd (COLS.toNat + 1) 0 0

/-- The column `c` lies inside one of the gaps. -/
def Covered (gaps : List (Int × Int)) (c : Int) : Prop :=
  ∃ gp ∈ gaps, gp.1 ≤ c ∧ c < gp.1 + gp.2

/-! ## Reachable states -/

/-- One transition of the running game: an `update` tick with any pressed
keys, a `respawn`, or a `generateLevel` call (a restart) with any column
count and random outcome. -/
inductive Step : Game → Game → Prop where
  | tick (k : Keys) (g : Game) : Step g (update k g)
  | respawned (g : Game) : Step g (respawn g)
  | generated (cols : Int) (rnd : Rand) (g g' : Game) :
      generateLevel cols rnd g = some g' → Step g g'

/-- The states reachable from `g0` by any finite sequence of transitions. -/
inductive ReachableFrom (g0 : Game) : Game → Prop where
  | start : ReachableFrom g0 g0
  | next {g g' : Game} : ReachableFrom g0 g → Step g g' → ReachableFrom g0 g'

/-- The jump invariant at tick boundaries. -/
def JumpInv (p : Entity) : Prop :=
  p.jumpCount ≤ MAX_JUMPS ∧ (p.onGround = true → p.jumpCount = 0)

/-- The horizontal speed lies in `[-MAXVX, MAXVX]`. -/
def VxBounded (p : Entity) : Prop := -MAXVX ≤ p.vx ∧ p.vx ≤ MAXVX

/-! ## Jump counter: lemmas -/

theorem resolveTile_ground_reset (COLS : Int) (tiles : List Tile) (e : Entity) (r c : Int)
    (h : e.onGround = true → e.jumpCount = 0) :
    (resolveTile COLS tiles true e r c).onGround = true →
      (resolveTile COLS tiles true e r c).jumpCount = 0 := by
  unfold resolveTile
  dsimp only
  split_ifs <;> simp_all

theorem resolveTile_jumpCount_le (COLS : Int) (tiles : List Tile) (b : Bool) (e : Entity)
    (r c : Int) : (resolveTile COLS tiles b e r c).jumpCount ≤ e.jumpCount := by
  unfold resolveTile
  dsimp only
  split_ifs <;> simp

theorem foldl_invariant {α β : Type} (P : α → Prop) (f : α → β → α)
    (hf : ∀ a b, P a → P (f a b)) (l : List β) (a : α) (ha : P a) : P (l.foldl f a) := by
  induction l generalizing a with
  | nil => simpa using ha
  | cons b l ih => exact ih (f a b) (hf a b ha)

theorem collideWithWorld_invariant (P : Entity → Prop) (COLS : Int) (tiles : List Tile)
    (b : Bool) (hP : ∀ e r c, P e → P (resolveTile COLS tiles b e r c)) (ent : Entity)
    (h0 : P { ent with onGround := false }) : P (collideWithWorld COLS tiles b ent) := by
  unfold collideWithWorld
  exact foldl_invariant P _
    (fun e r he => foldl_invariant P _ (fun e' c he' => hP e' r c he') _ e he) _ _ h0

theorem collideWithWorld_ground_reset (COLS : Int) (tiles : List Tile) (ent : Entity) :
    (collideWithWorld COLS tiles true ent).onGround = true →
      (collideWithWorld COLS tiles true ent).jumpCount = 0 := by
  refine collideWithWorld_invariant
    (fun e => e.onGround = true → e.jumpCount = 0) COLS tiles true ?_ ent ?_
  · intro e r c he
    exact resolveTile_ground_reset COLS tiles e r c he
  · simp

theorem collideWithWorld_jumpCount_le (COLS : Int) (tiles : List Tile) (b : Bool)
    (ent : Entity) : (collideWithWorld COLS tiles b ent).jumpCount ≤ ent.jumpCount := by
  refine collideWithWorld_invariant
    (fun e => e.jumpCount ≤ ent.jumpCount) COLS tiles b ?_ ent ?_
  · intro e r c he
    exact le_trans (resolveTile_jumpCount_le COLS tiles b e r c) he
  · simp

theorem jumpStep_jumpCount_le (k : Keys) (p : Entity) (h : JumpInv p) :
    (jumpStep k p).jumpCount ≤ MAX_JUMPS := by
  obtain ⟨h1, h2⟩ := h
  unfold jumpStep
  split_ifs with hk hj
  · simp only [Bool.or_eq_true, decide_eq_true_eq] at hj
    rcases hj with hg | hlt
    · simp [h2 hg, MAX_JUMPS]
    · simpa using hlt
  · exact h1
  · exact h1

theorem inputStep_player_flags (k : Keys) (g : Game) :
    (inputStep k g).player.onGround = g.player.onGround ∧
      (inputStep k g).player.jumpCount = g.player.jumpCount := by
  unfold inputStep
  cases k.left <;> cases k.right <;> simp

theorem respawn_player_flags (g : Game) :
    (respawn g).player.onGround = g.player.onGround ∧
      (respawn g).player.jumpCount = g.player.jumpCount := by
  simp [respawn]

theorem fellStep_player_flags (g : Game) :
    (fellStep g).player.onGround = g.player.onGround ∧
      (fellStep g).player.jumpCount = g.player.jumpCount := by
  unfold fellStep
  split_ifs
  · exact respawn_player_flags g
  · exact ⟨rfl, rfl⟩

theorem coinStep_player (g : Game) : (coinStep g).player = g.player := rfl

theorem enemyStep_player_flags (g : Game) (e : Enemy) :
    (enemyStep g e).2.player.onGround = g.player.onGround ∧
      (enemyStep g e).2.player.jumpCount = g.player.jumpCount := by
  unfold enemyStep
  dsimp only
  split_ifs <;> simp [respawn]

theorem enemiesLoop_player_flags (es : List Enemy) (g : Game) :
    (enemiesLoop es g).2.player.onGround = g.player.onGround ∧
      (enemiesLoop es g).2.player.jumpCount = g.player.jumpCount := by
  induction es generalizing g with
  | nil => exact ⟨rfl, rfl⟩
  | cons e es ih =>
    have h1 := enemyStep_player_flags g e
    have h2 := ih (enemyStep g e).2
    simp only [enemiesLoop]
    exact ⟨h2.1.trans h1.1, h2.2.trans h1.2⟩

theorem enemyPhase_player_flags (g : Game) :
    (enemyPhase g).player.onGround = g.player.onGround ∧
      (enemyPhase g).player.jumpCount = g.player.jumpCount := by
  simpa [enemyPhase] using enemiesLoop_player_flags g.enemies g

theorem generateLevel_player_flags (cols : Int) (rnd : Rand) (g g' : Game)
    (h : generateLevel cols rnd g = some g') :
    g'.player.onGround = g.player.onGround ∧ g'.player.jumpCount = g.player.jumpCount := by
  unfold generateLevel at h
  simp only at h
  split at h
  · exact absurd h (by simp)
  · split at h
    · exact absurd h (by simp)
    · simp only [Option.some.injEq] at h
      subst h
      exact ⟨rfl, rfl⟩

theorem update_JumpInv (k : Keys) (g : Game) (h : JumpInv g.player) :
    JumpInv (update k g).player := by
  have hin := inputStep_player_flags k g
  have h1 : JumpInv (inputStep k g).player := by
    unfold JumpInv at h ⊢
    rw [hin.1, hin.2]
    exact h
  have h2 := jumpStep_jumpCount_le k _ h1
  unfold update playerPhase movePhase
  simp only
  refine ⟨?_, ?_⟩
  · rw [(enemyPhase_player_flags _).2, coinStep_player]
    refine le_trans (collideWithWorld_jumpCount_le _ _ _ _) ?_
    rw [(fellStep_player_flags _).2]
    exact h2
  · rw [(enemyPhase_player_flags _).1, (enemyPhase_player_flags _).2, coinStep_player]
    exact collideWithWorld_ground_reset _ _ _

theorem Step_JumpInv {g g' : Game} (hs : Step g g') (h : JumpInv g.player) :
    JumpInv g'.player := by
  cases hs with
  | tick k => exact update_JumpInv k g h
  | respawned =>
    unfold JumpInv at h ⊢
    rw [(respawn_player_flags g).1, (respawn_player_flags g).2]
    exact h
  | generated cols rnd _ _ hg =>
    have hf := generateLevel_player_flags cols rnd g g' hg
    unfold JumpInv at h ⊢
    rw [hf.1, hf.2]
    exact h

/-! ## Collision resolution: lemmas -/

theorem mem_intRange (lo hi x : Int) : x ∈ intRange lo hi ↔ lo ≤ x ∧ x ≤ hi := by
  unfold intRange
  simp only [List.mem_map, List.mem_range]
  constructor
  · rintro ⟨i, hi', rfl⟩
    omega
  · rintro ⟨h1, h2⟩
    exact ⟨(x - lo).toNat, by omega, by omega⟩

theorem intRange_nodup (lo hi : Int) : (intRange lo hi).Nodup := by
  unfold intRange
  refine List.Nodup.map ?_ (List.nodup_range _)
  intro a b h
  simpa using h

theorem tileAt_cell (COLS : Int) (tiles : List Tile) (r c : Int) :
    tileAt COLS tiles ((c : ℚ) * TILE) ((r : ℚ) * TILE) = true ↔
      InGrid COLS ⟨r, c⟩ ∧ (⟨r, c⟩ : Tile) ∈ tiles := by
  have hc : ⌊(c : ℚ) * TILE / TILE⌋ = c := by
    rw [mul_div_assoc]; simp [TILE]
  have hr : ⌊(r : ℚ) * TILE / TILE⌋ = r := by
    rw [mul_div_assoc]; simp [TILE]
  unfold tileAt InGrid
  simp only [hc, hr]
  split_ifs with h
  · simp only [ge_iff_le] at h
    constructor
    · intro hf; exact absurd hf (by simp)
    · rintro ⟨⟨h1, h2, h3, h4⟩, _⟩
      omega
  · simp only [ge_iff_le, not_or, not_lt, not_le] at h
    simp only [List.any_eq_true, Bool.and_eq_true, decide_eq_true_eq]
    constructor
    · rintro ⟨t, ht, h1, h2⟩
      refine ⟨⟨h.1, h.2.1, h.2.2.1, h.2.2.2⟩, ?_⟩
      have : t = ⟨r, c⟩ := by cases t; simp_all
      exact this ▸ ht
    · rintro ⟨_, ht⟩
      exact ⟨⟨r, c⟩, ht, rfl, rfl⟩

theorem resolveTile_noop (COLS : Int) (tiles : List Tile) (b : Bool) (e : Entity) (r c : Int)
    (h : ¬ (InGrid COLS ⟨r, c⟩ ∧ (⟨r, c⟩ : Tile) ∈ tiles ∧ Overlaps e ⟨r, c⟩)) :
    resolveTile COLS tiles b e r c = e := by
  unfold resolveTile
  dsimp only
  split_ifs with h1 h2 h3 <;> try rfl
  all_goals
    exfalso
    apply h
    have := (tileAt_cell COLS tiles r c).1 h2
    exact ⟨this.1, this.2, h3⟩

theorem resolveTile_hit (COLS : Int) (tiles : List Tile) (b : Bool) (ent : Entity) (r c : Int)
    (hin : InGrid COLS ⟨r, c⟩) (hmem : (⟨r, c⟩ : Tile) ∈ tiles) (hov : Overlaps ent ⟨r, c⟩) :
    resolveTile COLS tiles b { ent with onGround := false } r c = resolveOnce b ent r c := by
  have ht := (tileAt_cell COLS tiles r c).2 ⟨hin, hmem⟩
  have hg : ¬ (r < 0 ∨ r ≥ ROWS ∨ c < 0 ∨ c ≥ COLS) := by
    unfold InGrid at hin
    simp only at hin
    omega
  have hov' : overlapX { ent with onGround := false } c > 0 ∧
      overlapY { ent with onGround := false } r > 0 := hov
  unfold resolveTile resolveOnce
  dsimp only
  rw [if_neg hg, if_pos ht, if_pos hov']
  have hx : overlapX { ent with onGround := false } c = overlapX ent c := rfl
  have hy : overlapY { ent with onGround := false } r = overlapY ent r := rfl
  rw [hx, hy]
  split_ifs <;> simp_all

theorem foldl_single_active {α β : Type} (f : α → β → α) (e0 e1 : α) (a : β) (l : List β)
    (hnd : l.Nodup) (ha : a ∈ l) (hhit : f e0 a = e1)
    (h0 : ∀ x ∈ l, x ≠ a → f e0 x = e0) (h1 : ∀ x ∈ l, x ≠ a → f e1 x = e1) :
    l.foldl f e0 = e1 := by
  have stay : ∀ (m : List β), (∀ x ∈ m, f e1 x = e1) → m.foldl f e1 = e1 := by
    intro m
    induction m with
    | nil => intro _; rfl
    | cons x m ih =>
      intro hm
      rw [List.foldl_cons, hm x (List.mem_cons_self _ _)]
      exact ih (fun y hy => hm y (List.mem_cons_of_mem _ hy))
  induction l with
  | nil => exact absurd ha (List.not_mem_nil _)
  | cons x l ih =>
    rw [List.nodup_cons] at hnd
    rw [List.foldl_cons]
    by_cases hxa : x = a
    · subst hxa
      rw [hhit]
      refine stay l (fun y hy => h1 y (List.mem_cons_of_mem _ hy) ?_)
      rintro rfl
      exact hnd.1 hy
    · rw [h0 x (List.mem_cons_self _ _) hxa]
      have hal : a ∈ l := by
        rcases List.mem_cons.1 ha with h | h
        · exact absurd h.symm hxa
        · exact h
      exact ih hnd.2 hal (fun y hy => h0 y (List.mem_cons_of_mem _ hy))
        (fun y hy => h1 y (List.mem_cons_of_mem _ hy))

theorem foldl_all_noop {α β : Type} (f : α → β → α) (e : α) (l : List β)
    (h : ∀ x ∈ l, f e x = e) : l.foldl f e = e := by
  induction l with
  | nil => rfl
  | cons x l ih =>
    rw [List.foldl_cons, h x (List.mem_cons_self _ _)]
    exact ih (fun y hy => h y (List.mem_cons_of_mem _ hy))

theorem overlap_in_window (ent : Entity) (r c : Int) (hov : Overlaps ent ⟨r, c⟩) :
    c ∈ intRange ⌊(ent.x - 2) / TILE⌋ ⌊(ent.x + ent.w + 2) / TILE⌋ ∧
    r ∈ intRange ⌊(ent.y - 2) / TILE⌋ ⌊(ent.y + ent.h + 2) / TILE⌋ := by
  obtain ⟨hx, hy⟩ := hov
  unfold overlapX at hx
  unfold overlapY at hy
  simp only [TILE] at hx hy ⊢
  have hx1 : ent.x < (c : ℚ) * 48 + 48 := by
    have h1 := min_le_right (ent.x + ent.w) ((c : ℚ) * 48 + 48)
    have h2 := le_max_left ent.x ((c : ℚ) * 48)
    linarith
  have hx2 : (c : ℚ) * 48 < ent.x + ent.w := by
    have h1 := min_le_left (ent.x + ent.w) ((c : ℚ) * 48 + 48)
    have h2 := le_max_right ent.x ((c : ℚ) * 48)
    linarith
  have hy1 : ent.y < (r : ℚ) * 48 + 48 := by
    have h1 := min_le_right (ent.y + ent.h) ((r : ℚ) * 48 + 48)
    have h2 := le_max_left ent.y ((r : ℚ) * 48)
    linarith
  have hy2 : (r : ℚ) * 48 < ent.y + ent.h := by
    have h1 := min_le_left (ent.y + ent.h) ((r : ℚ) * 48 + 48)
    have h2 := le_max_right ent.y ((r : ℚ) * 48)
    linarith
  rw [mem_intRange, mem_intRange]
  refine ⟨⟨?_, ?_⟩, ⟨?_, ?_⟩⟩
  · have : ⌊(ent.x - 2) / 48⌋ < c + 1 := by
      rw [Int.floor_lt, div_lt_iff₀ (by norm_num)]
      push_cast
      linarith
    omega
  · rw [Int.le_floor, le_div_iff₀ (by norm_num)]
    linarith
  · have : ⌊(ent.y - 2) / 48⌋ < r + 1 := by
      rw [Int.floor_lt, div_lt_iff₀ (by norm_num)]
      push_cast
      linarith
    omega
  · rw [Int.le_floor, le_div_iff₀ (by norm_num)]
    linarith

/-! ## Enemy patrol and coin pickup: lemmas -/

theorem enemyStep_world (g : Game) (e : Enemy) :
    (enemyStep g e).2.COLS = g.COLS ∧ (enemyStep g e).2.tiles = g.tiles := by
  unfold enemyStep
  dsimp only
  split_ifs <;> simp [respawn]

theorem enemyStep_vx (g : Game) (e : Enemy) (ha : e.alive = true) :
    (enemyStep g e).1.vx = (enemyMove g.COLS g.tiles e).vx := by
  unfold enemyStep
  dsimp only
  simp only [ha, Bool.not_true, Bool.false_eq_true, if_false]
  split_ifs <;> rfl

theorem enemiesLoop_vx (es : List Enemy) (g : Game) (i : Nat) (e : Enemy)
    (hi : es[i]? = some e) (ha : e.alive = true) :
    ((enemiesLoop es g).1[i]?).map (fun e' => e'.vx) =
      some (enemyMove g.COLS g.tiles e).vx := by
  induction es generalizing g i with
  | nil => simp at hi
  | cons x es ih =>
    cases i with
    | zero =>
      simp only [List.getElem?_cons_zero, Option.some.injEq] at hi
      subst hi
      simp [enemiesLoop, enemyStep_vx g x ha]
    | succ j =>
      simp only [List.getElem?_cons_succ] at hi
      have := ih (enemyStep g x).2 j hi
      rw [(enemyStep_world g x).1, (enemyStep_world g x).2] at this
      simpa [enemiesLoop] using this

theorem playerPhase_world (k : Keys) (g : Game) :
    (playerPhase k g).COLS = g.COLS ∧ (playerPhase k g).tiles = g.tiles ∧
      (playerPhase k g).enemies = g.enemies := by
  have hf : ∀ g : Game, (fellStep g).COLS = g.COLS ∧ (fellStep g).tiles = g.tiles ∧
      (fellStep g).enemies = g.enemies := by
    intro g
    unfold fellStep
    split_ifs <;> simp [respawn]
  unfold playerPhase movePhase
  simp [coinStep, hf, inputStep]

theorem update_enemy_vx (k : Keys) (g : Game) (i : Nat) (e : Enemy)
    (hi : g.enemies[i]? = some e) (ha : e.alive = true) :
    ((update k g).enemies[i]?).map (fun e' => e'.vx) =
      some (enemyMove g.COLS g.tiles e).vx := by
  have hw := playerPhase_world k g
  have := enemiesLoop_vx (playerPhase k g).enemies (playerPhase k g) i e (by rw [hw.2.2]; exact hi) ha
  rw [hw.1, hw.2.1] at this
  simpa [update, enemyPhase] using this

theorem enemyMove_ledge_flip (COLS : Int) (tiles : List Tile) (e : Enemy) (hv : e.vx < 0)
    (hledge : tileAt COLS tiles (e.x + e.vx - 4) (e.y + e.h + 6) = false)
    (hwall : tileAt COLS tiles (e.x + e.vx + (e.w + 4)) e.y = false) :
    (enemyMove COLS tiles e).vx = -e.vx := by
  have hpos : ¬ (e.vx * -1 < 0) := by
    have : e.vx * -1 = -e.vx := by ring
    rw [this]
    linarith
  have hpos' : ¬ (0 < e.vx) := by linarith
  unfold enemyMove
  simp [hv, hledge, hpos, hpos', hwall]

theorem pickupCoins_length (p : Entity) (cs : List Coin) (score : Int) (n : Nat) :
    (pickupCoins p cs score n).1.length = cs.length := by
  induction cs generalizing score n with
  | nil => rfl
  | cons c cs ih =>
    unfold pickupCoins
    split_ifs <;> simp [ih]

theorem pickupCoins_keeps_collected (p : Entity) (cs : List Coin) (score : Int) (n : Nat)
    (i : Nat) (c : Coin) (hi : cs[i]? = some c) (hc : c.collected = true) :
    (pickupCoins p cs score n).1[i]? = some c := by
  induction cs generalizing score n i with
  | nil => simp at hi
  | cons x cs ih =>
    cases i with
    | zero =>
      simp only [List.getElem?_cons_zero, Option.some.injEq] at hi
      subst hi
      simp [pickupCoins, hc]
    | succ j =>
      simp only [List.getElem?_cons_succ] at hi
      unfold pickupCoins
      split_ifs <;> simp [ih _ _ j hi]

theorem pickupCoins_counts (p : Entity) (cs : List Coin) (score : Int) (n : Nat) :
    (pickupCoins p cs score n).2.2 = n + newlyCollected cs (pickupCoins p cs score n).1 ∧
    (pickupCoins p cs score n).2.1 =
      score + 10 * (newlyCollected cs (pickupCoins p cs score n).1 : Int) := by
  induction cs generalizing score n with
  | nil => simp [pickupCoins, newlyCollected]
  | cons c cs ih =>
    unfold pickupCoins
    split_ifs with h1 h2
    · have := ih score n
      simp only [newlyCollected, h1, Bool.not_true, Bool.false_and, Bool.false_eq_true,
        if_false, zero_add]
      exact this
    · have := ih (score + 10) (n + 1)
      simp only [newlyCollected, h1, Bool.not_true, Bool.not_false, Bool.true_and, if_true]
      constructor
      · rw [this.1]; omega
      · rw [this.2]; push_cast; ring
    · have := ih score n
      simp only [Bool.not_eq_true] at h1
      simp only [newlyCollected, h1, Bool.not_false, Bool.true_and, Bool.false_eq_true,
        if_false, zero_add]
      exact this

theorem pickupCoins_idem (p : Entity) (cs : List Coin) (score : Int) (n : Nat)
    (score' : Int) (n' : Nat) :
    pickupCoins p (pickupCoins p cs score n).1 score' n' =
      ((pickupCoins p cs score n).1, score', n') := by
  induction cs generalizing score n with
  | nil => simp [pickupCoins]
  | cons c cs ih =>
    by_cases h1 : c.collected = true
    · have := ih score n
      simp [pickupCoins, h1, this]
    · by_cases h2 : coinNear p c = true
      · have := ih (score + 10) (n + 1)
        simp [pickupCoins, h1, h2, this]
      · have := ih score n
        simp [pickupCoins, h1, h2, this]

theorem enemiesLoop_coins (es : List Enemy) (g : Game) :
    (enemiesLoop es g).2.coins = g.coins ∧ (enemiesLoop es g).2.coinCount = g.coinCount := by
  induction es generalizing g with
  | nil => exact ⟨rfl, rfl⟩
  | cons e es ih =>
    have h1 : (enemyStep g e).2.coins = g.coins ∧
        (enemyStep g e).2.coinCount = g.coinCount := by
      unfold enemyStep
      dsimp only
      split_ifs <;> simp [respawn]
    have h2 := ih (enemyStep g e).2
    simp only [enemiesLoop]
    exact ⟨h2.1.trans h1.1, h2.2.trans h1.2⟩

theorem update_coins (k : Keys) (g : Game) :
    ∃ (p : Entity) (s : Int),
      (update k g).coins = (pickupCoins p g.coins s g.coinCount).1 ∧
      (update k g).coinCount = (pickupCoins p g.coins s g.coinCount).2.2 := by
  have hf : ∀ g : Game, (fellStep g).coins = g.coins ∧
      (fellStep g).coinCount = g.coinCount := by
    intro g
    unfold fellStep
    split_ifs <;> simp [respawn]
  have hm : (movePhase k g).coins = g.coins ∧ (movePhase k g).coinCount = g.coinCount := by
    unfold movePhase
    simp [hf, inputStep]
  refine ⟨(movePhase k g).player, (movePhase k g).score, ?_, ?_⟩
  · simp only [update, enemyPhase, (enemiesLoop_coins _ _).1]
    simp only [playerPhase, coinStep, hm.1, hm.2]
  · simp only [update, enemyPhase, (enemiesLoop_coins _ _).2]
    simp only [playerPhase, coinStep, hm.1, hm.2]

/-! ## Level generator: lemmas -/

theorem floor_scale_bounds (u : Unit01) (n : Int) (hn : 0 < n) :
    0 ≤ ⌊u.val * (n : ℚ)⌋ ∧ ⌊u.val * (n : ℚ)⌋ < n := by
  have hn' : (0 : ℚ) < (n : ℚ) := by exact_mod_cast hn
  constructor
  · exact Int.floor_nonneg.2 (mul_nonneg u.nonneg hn'.le)
  · rw [Int.floor_lt]
    have := u.lt_one
    nlinarith

theorem gap_length (u : Unit01) : 1 + ⌊u.val * 2⌋ = 1 ∨ 1 + ⌊u.val * 2⌋ = 2 := by
  have h := floor_scale_bounds u 2 (by norm_num)
  simp only [Int.cast_ofNat] at h
  omega

theorem groundLoop_spec (COLS : Int) (rnd : Rand) :
    ∀ (fuel : Nat) (c : Int) (s : Gen), (COLS - c).toNat < fuel →
      ∃ s', groundLoop COLS rnd fuel c s = some s' ∧
        (∀ t ∈ s.grid, t ∈ s'.grid) ∧
        (∀ c', c ≤ c' → c' < COLS → (c' ≤ 12 ∨ COLS - 11 ≤ c') →
          (⟨groundRow, c'⟩ : Tile) ∈ s'.grid) := by
  intro fuel
  induction fuel with
  | zero => intro c s h; omega
  | succ fuel ih =>
    intro c s hfuel
    unfold groundLoop
    by_cases hc : c < COLS
    · rw [if_pos hc]
      by_cases h6 : c < 6
      · rw [if_pos h6]
        obtain ⟨s', h1, h2, h3⟩ :=
          ih (c + 1) { s with grid := ⟨groundRow, c⟩ :: s.grid } (by omega)
        refine ⟨s', h1, fun t ht => h2 t (List.mem_cons_of_mem _ ht), ?_⟩
        intro c' hc1 hc2 hc3
        rcases eq_or_lt_of_le hc1 with heq | hlt
        · subst heq
          exact h2 _ (List.mem_cons_self _ _)
        · exact h3 c' (by omega) hc2 hc3
      · rw [if_neg h6]
        by_cases hgap : (rnd s.k).val < 0.03 ∧ c > 12 ∧ c < COLS - 12
        · rw [if_pos hgap]
          dsimp only
          have hg := gap_length (rnd (s.k + 1))
          obtain ⟨s', h1, h2, h3⟩ :=
            ih (c + (1 + ⌊(rnd (s.k + 1)).val * 2⌋ - 1) + 1) { s with k := s.k + 2 }
              (by omega)
          refine ⟨s', h1, h2, ?_⟩
          intro c' hc1 hc2 hc3
          exact h3 c' (by omega) hc2 hc3
        · rw [if_neg hgap]
          obtain ⟨s', h1, h2, h3⟩ :=
            ih (c + 1) { s with k := s.k + 1, grid := ⟨groundRow, c⟩ :: s.grid } (by omega)
          refine ⟨s', h1, fun t ht => h2 t (List.mem_cons_of_mem _ ht), ?_⟩
          intro c' hc1 hc2 hc3
          rcases eq_or_lt_of_le hc1 with heq | hlt
          · subst heq
            exact h2 _ (List.mem_cons_self _ _)
          · exact h3 c' (by omega) hc2 hc3
    · rw [if_neg hc]
      exact ⟨s, rfl, fun t ht => ht, fun c' h1 h2 _ => absurd (lt_of_le_of_lt h1 h2) hc⟩

theorem platformLoop_spec (rnd : Rand) (x segLen : Int) :
    ∀ (fuel : Nat) (i : Int) (s : Gen), (4 - i).toNat < fuel →
      ∃ s', platformLoop rnd x segLen fuel i s = some s' ∧ (∀ t ∈ s.grid, t ∈ s'.grid) := by
  intro fuel
  induction fuel with
  | zero => intro i s h; omega
  | succ fuel ih =>
    intro i s hfuel
    unfold platformLoop
    by_cases hi : i < ⌊1 + (rnd s.k).val * 4⌋
    · rw [if_pos hi]
      dsimp only
      have hb : ⌊1 + (rnd s.k).val * 4⌋ < 5 := by
        rw [Int.floor_lt]
        have := (rnd s.k).lt_one
        push_cast
        linarith
      obtain ⟨s', h1, h2⟩ := ih (i + 1)
        { k := s.k + 4
          grid := if groundRow - (2 + ⌊(rnd (s.k + 2)).val * 3⌋) > 0 then
              ⟨groundRow - (2 + ⌊(rnd (s.k + 2)).val * 3⌋),
                x + ⌊(rnd (s.k + 1)).val * (segLen : ℚ)⌋⟩ :: s.grid
            else s.grid
          coins := if (rnd (s.k + 3)).val < 0.6 then
              s.coins ++ [coinAt (x + ⌊(rnd (s.k + 1)).val * (segLen : ℚ)⌋)
                (groundRow - (2 + ⌊(rnd (s.k + 2)).val * 3⌋))]
            else s.coins }
        (by omega)
      refine ⟨s', h1, fun t ht => h2 t ?_⟩
      dsimp only
      split_ifs
      · exact List.mem_cons_of_mem _ ht
      · exact ht
    · rw [if_neg hi]
      exact ⟨_, rfl, fun t ht => ht⟩

theorem staircase_grid (COLS : Int) (rnd : Rand) (x segLen : Int) (s : Gen) :
    ∀ t ∈ s.grid, t ∈ (staircase COLS rnd x segLen s).grid := by
  unfold staircase
  dsimp only
  refine foldl_invariant (fun s' : Gen => ∀ t ∈ s.grid, t ∈ s'.grid) _ ?_ _ _ (fun t ht => ht)
  intro a b ha t ht
  exact List.mem_cons_of_mem _ (ha t ht)

theorem blockBand_grid (COLS : Int) (rnd : Rand) (x segLen : Int) (s : Gen) :
    ∀ t ∈ s.grid, t ∈ (blockBand COLS rnd x segLen s).grid := by
  unfold blockBand
  dsimp only
  refine foldl_invariant (fun s' : Gen => ∀ t ∈ s.grid, t ∈ s'.grid) _ ?_ _ _ (fun t ht => ht)
  intro a b ha t ht
  dsimp only
  split_ifs
  · exact List.mem_cons_of_mem _ (ha t ht)
  · exact ha t ht

theorem scatteredCoins_grid (COLS : Int) (rnd : Rand) (x segLen : Int) (s : Gen) :
    (scatteredCoins COLS rnd x segLen s).grid = s.grid := by
  unfold scatteredCoins
  refine foldl_invariant (fun s' : Gen => s'.grid = s.grid) _ ?_ _ _ rfl
  intro a b ha
  exact ha

theorem groundCoins_grid (COLS : Int) (rnd : Rand) (s : Gen) :
    (groundCoins COLS rnd s).grid = s.grid := by
  unfold groundCoins
  refine foldl_invariant (fun s' : Gen => s'.grid = s.grid) _ ?_ _ _ rfl
  intro a b ha
  exact ha

theorem segmentLoop_spec (COLS : Int) (rnd : Rand) :
    ∀ (fuel : Nat) (x : Int) (s : Gen), (COLS - 8 - x).toNat < fuel →
      ∃ s', segmentLoop COLS rnd fuel x s = some s' ∧ (∀ t ∈ s.grid, t ∈ s'.grid) := by
  intro fuel
  induction fuel with
  | zero => intro x s h; omega
  | succ fuel ih =>
    intro x s hfuel
    unfold segmentLoop
    by_cases hx : x < COLS - 8
    · rw [if_pos hx]
      dsimp only
      have hstep : ∀ u : Unit01, 4 ≤ ⌊4 + u.val * 10⌋ := by
        intro u
        rw [Int.le_floor]
        have := u.nonneg
        push_cast
        linarith
      have hbody : ∃ s1,
          (if ⌊(rnd s.k).val * 4⌋ = 0 then
              platformLoop rnd x ⌊4 + (rnd (s.k + 1)).val * 14⌋ 5 0 { s with k := s.k + 2 }
            else if ⌊(rnd s.k).val * 4⌋ = 1 then
              some (staircase COLS rnd x ⌊4 + (rnd (s.k + 1)).val * 14⌋ { s with k := s.k + 2 })
            else if ⌊(rnd s.k).val * 4⌋ = 2 then
              some (blockBand COLS rnd x ⌊4 + (rnd (s.k + 1)).val * 14⌋ { s with k := s.k + 2 })
            else
              some (scatteredCoins COLS rnd x ⌊4 + (rnd (s.k + 1)).val * 14⌋
                { s with k := s.k + 2 })) = some s1 ∧
          (∀ t ∈ s.grid, t ∈ s1.grid) := by
        split_ifs
        · exact platformLoop_spec rnd x _ 5 0 { s with k := s.k + 2 } (by decide)
        · exact ⟨_, rfl, staircase_grid COLS rnd x _ { s with k := s.k + 2 }⟩
        · exact ⟨_, rfl, blockBand_grid COLS rnd x _ { s with k := s.k + 2 }⟩
        · refine ⟨_, rfl, fun t ht => ?_⟩
          rw [scatteredCoins_grid]
          exact ht
      obtain ⟨s1, hb1, hb2⟩ := hbody
      rw [hb1]
      dsimp only
      have h4 := hstep (rnd s1.k)
      obtain ⟨s', h1, h2⟩ :=
        ih (x + ⌊4 + (rnd s1.k).val * 10⌋) { s1 with k := s1.k + 1 } (by omega)
      exact ⟨s', h1, fun t ht => h2 t (hb2 t ht)⟩
    · rw [if_neg hx]
      exact ⟨s, rfl, fun t ht => ht⟩

theorem mem_flatten_grid (COLS : Int) (grid : List Tile) (t : Tile) :
    t ∈ flatten COLS grid ↔ InGrid COLS t ∧ t ∈ grid := by
  unfold flatten InGrid
  simp only [List.mem_flatten, List.mem_map, mem_intRange, List.mem_filter,
    decide_eq_true_eq]
  constructor
  · rintro ⟨l, ⟨r, hr, rfl⟩, hm⟩
    simp only [List.mem_map, List.mem_filter, mem_intRange, decide_eq_true_eq] at hm
    obtain ⟨c, ⟨hc, hg⟩, rfl⟩ := hm
    refine ⟨⟨hr.1, ?_, hc.1, ?_⟩, hg⟩
    · have := hr.2; dsimp only; omega
    · have := hc.2; dsimp only; omega
  · rintro ⟨⟨h1, h2, h3, h4⟩, hg⟩
    refine ⟨_, ⟨t.r, ⟨h1, by omega⟩, rfl⟩, ?_⟩
    simp only [List.mem_map, List.mem_filter, mem_intRange, decide_eq_true_eq]
    exact ⟨t.c, ⟨⟨h3, by omega⟩, hg⟩, rfl⟩

theorem clampCols_bounds (cols : Int) : 80 ≤ clampCols cols ∧ clampCols cols ≤ 3000 := by
  unfold clampCols
  omega

theorem generateLevel_spec (cols : Int) (rnd : Rand) (g : Game) :
    ∃ (g' : Game) (grid : List Tile), generateLevel cols rnd g = some g' ∧
      g'.COLS = clampCols cols ∧ g'.tiles = flatten (clampCols cols) grid ∧
      (∀ c', 0 ≤ c' → c' < clampCols cols → (c' ≤ 12 ∨ clampCols cols - 11 ≤ c') →
        (⟨groundRow, c'⟩ : Tile) ∈ grid) := by
  obtain ⟨s1, h1, _, h3⟩ := groundLoop_spec (clampCols cols) rnd
    ((clampCols cols).toNat + 1) 0 { k := 0, grid := [], coins := [] } (by omega)
  obtain ⟨s2, k1, k2⟩ := segmentLoop_spec (clampCols cols) rnd
    ((clampCols cols).toNat + 1) 8 s1 (by omega)
  unfold generateLevel
  dsimp only
  rw [h1]
  dsimp only
  rw [k1]
  exact ⟨_, s2.grid, rfl, rfl, rfl, fun c' a b c => k2 _ (h3 c' a b c)⟩

theorem exists_of_map_decide {α : Type} (o : Option α) (P : α → Prop) [DecidablePred P]
    (h : o.map (fun a => decide (P a)) = some true) : ∃ a, o = some a ∧ P a := by
  cases o with
  | none => simp at h
  | some a => exact ⟨a, rfl, by simpa using h⟩

/-! ## Ground row: lemmas -/

theorem ground_mark_iff (COLS c : Int) (G : List (Int × Int)) (sg : List Tile) (t : Tile)
    (hc : c < COLS) (hG : ∀ gp ∈ G, c + 1 ≤ gp.1) :
    (t ∈ (⟨groundRow, c⟩ : Tile) :: sg ∨
        (t.r = groundRow ∧ c + 1 ≤ t.c ∧ t.c < COLS ∧ ¬ Covered G t.c)) ↔
      (t ∈ sg ∨ (t.r = groundRow ∧ c ≤ t.c ∧ t.c < COLS ∧ ¬ Covered G t.c)) := by
  constructor
  · rintro (hm | ⟨h1, h2, h3, h4⟩)
    · rcases List.mem_cons.1 hm with rfl | hm
      · refine Or.inr ⟨rfl, le_refl _, hc, ?_⟩
        rintro ⟨gp, hgp, h1, _⟩
        have := hG gp hgp
        dsimp only at h1
        omega
      · exact Or.inl hm
    · exact Or.inr ⟨h1, by omega, h3, h4⟩
  · rintro (hm | ⟨h1, h2, h3, h4⟩)
    · exact Or.inl (List.mem_cons_of_mem _ hm)
    · rcases eq_or_lt_of_le h2 with heq | hlt
      · left
        have : t = ⟨groundRow, c⟩ := by
          cases t
          simp only [Tile.mk.injEq]
          exact ⟨h1, heq.symm⟩
        rw [this]
        exact List.mem_cons_self _ _
      · exact Or.inr ⟨h1, by omega, h3, h4⟩

theorem ground_gap_iff (COLS c gap n : Int) (G : List (Int × Int)) (sg : List Tile) (t : Tile)
    (hgap : 1 ≤ gap) (hn : n = c + gap) :
    (t ∈ sg ∨ (t.r = groundRow ∧ n ≤ t.c ∧ t.c < COLS ∧ ¬ Covered G t.c)) ↔
      (t ∈ sg ∨ (t.r = groundRow ∧ c ≤ t.c ∧ t.c < COLS ∧ ¬ Covered ((c, gap) :: G) t.c)) := by
  subst hn
  constructor
  · rintro (hm | ⟨h1, h2, h3, h4⟩)
    · exact Or.inl hm
    · refine Or.inr ⟨h1, by omega, h3, ?_⟩
      rintro ⟨gp, hgp, k1, k2⟩
      rcases List.mem_cons.1 hgp with rfl | hgp
      · dsimp only at k2
        omega
      · exact h4 ⟨gp, hgp, k1, k2⟩
  · rintro (hm | ⟨h1, h2, h3, h4⟩)
    · exact Or.inl hm
    · refine Or.inr ⟨h1, ?_, h3, ?_⟩
      · by_contra hlt
        exact h4 ⟨(c, gap), List.mem_cons_self _ _, h2, by dsimp only; omega⟩
      · rintro ⟨gp, hgp, k1, k2⟩
        exact h4 ⟨gp, List.mem_cons_of_mem _ hgp, k1, k2⟩

theorem groundLoop_gaps (COLS : Int) (rnd : Rand) :
    ∀ (fuel : Nat) (c : Int) (s : Gen), (COLS - c).toNat < fuel →
      ∃ s', groundLoop COLS rnd fuel c s = some s' ∧
        (∀ gp ∈ groundGaps COLS rnd fuel c s.k,
          c ≤ gp.1 ∧ (gp.2 = 1 ∨ gp.2 = 2) ∧ 12 < gp.1 ∧ gp.1 < COLS - 12) ∧
        (∀ t : Tile, t ∈ s'.grid ↔
          t ∈ s.grid ∨ (t.r = groundRow ∧ c ≤ t.c ∧ t.c < COLS ∧
            ¬ Covered (groundGaps COLS rnd fuel c s.k) t.c)) := by
  intro fuel
  induction fuel with
  | zero => intro c s h; omega
  | succ fuel ih =>
    intro c s hfuel
    unfold groundLoop groundGaps
    by_cases hc : c < COLS
    · simp only [if_pos hc]
      by_cases h6 : c < 6
      · simp only [if_pos h6]
        obtain ⟨s', h1, h2, h3⟩ :=
          ih (c + 1) { s with grid := ⟨groundRow, c⟩ :: s.grid } (by omega)
        refine ⟨s', h1, ?_, ?_⟩
        · intro gp hgp
          have := h2 gp hgp
          exact ⟨by omega, this.2⟩
        · intro t
          rw [h3 t]
          exact ground_mark_iff COLS c _ s.grid t hc (fun gp hgp => (h2 gp hgp).1)
      · simp only [if_neg h6]
        by_cases hgap : (rnd s.k).val < 0.03 ∧ c > 12 ∧ c < COLS - 12
        · simp only [if_pos hgap]
          have hg := gap_length (rnd (s.k + 1))
          obtain ⟨s', h1, h2, h3⟩ :=
            ih (c + (1 + ⌊(rnd (s.k + 1)).val * 2⌋ - 1) + 1) { s with k := s.k + 2 }
              (by omega)
          refine ⟨s', h1, ?_, ?_⟩
          · intro gp hgp
            rcases List.mem_cons.1 hgp with rfl | hgp
            · exact ⟨le_refl _, hg, hgap.2.1, hgap.2.2⟩
            · have := h2 gp hgp
              exact ⟨by omega, this.2⟩
          · intro t
            rw [h3 t]
            exact ground_gap_iff COLS c _ _ _ s.grid t (by omega) (by omega)
        · simp only [if_neg hgap]
          obtain ⟨s', h1, h2, h3⟩ :=
            ih (c + 1) { s with k := s.k + 1, grid := ⟨groundRow, c⟩ :: s.grid } (by omega)
          refine ⟨s', h1, ?_, ?_⟩
          · intro gp hgp
            have := h2 gp hgp
            exact ⟨by omega, this.2⟩
          · intro t
            rw [h3 t]
            exact ground_mark_iff COLS c _ s.grid t hc (fun gp hgp => (h2 gp hgp).1)
    · simp only [if_neg hc]
      refine ⟨s, rfl, ?_, ?_⟩
      · intro gp hgp
        exact absurd hgp (List.not_mem_nil _)
      · intro t
        constructor
        · intro h; exact Or.inl h
        · rintro (h | ⟨_, h2, h3, _⟩)
          · exact h
          · omega

theorem generateLevel_ground (cols : Int) (rnd : Rand) (g : Game) :
    ∃ (g' : Game) (s1 : Gen) (grid : List Tile), generateLevel cols rnd g = some g' ∧
      g'.COLS = clampCols cols ∧ g'.tiles = flatten (clampCols cols) grid ∧
      groundLoop (clampCols cols) rnd ((clampCols cols).toNat + 1) 0
        { k := 0, grid := [], coins := [] } = some s1 ∧
      (∀ t ∈ s1.grid, t ∈ grid) := by
  obtain ⟨s1, h1, _, _⟩ := groundLoop_spec (clampCols cols) rnd
    ((clampCols cols).toNat + 1) 0 { k := 0, grid := [], coins := [] } (by omega)
  obtain ⟨s2, k1, k2⟩ := segmentLoop_spec (clampCols cols) rnd
    ((clampCols cols).toNat + 1) 8 s1 (by omega)
  have hgen : ∃ g' : Game, generateLevel cols rnd g = some g' ∧
      g'.COLS = clampCols cols ∧ g'.tiles = flatten (clampCols cols) s2.grid := by
    unfold generateLevel
    dsimp only
    rw [h1]
    dsimp only
    rw [k1]
    exact ⟨_, rfl, rfl, rfl⟩
  obtain ⟨g', a1, a2, a3⟩ := hgen
  exact ⟨g', s1, s2.grid, a1, a2, a3, h1, k2⟩

theorem cutGaps_gapRnd : cutGaps 80 gapRnd = [(20, 2), (22, 2)] := by
  decide!

/-! ## Claims -/

/-- C1: in every state reachable from a state with `jumpCount = 0` and
`onGround = false` (in particular from `initial`) by update ticks with any
keys, respawns and level generations, the player's `jumpCount` is at most
`MAX_JUMPS = 2` and `onGround = true` implies `jumpCount = 0`; and whenever
`collideWithWorld` on the player leaves `onGround = true`, `jumpCount` is 0. -/
theorem jumpCount_bounded (g0 g : Game) (h0 : g0.player.jumpCount = 0)
    (hg0 : g0.player.onGround = false) (hr : ReachableFrom g0 g) :
    (g.player.jumpCount ≤ MAX_JUMPS ∧ MAX_JUMPS = 2 ∧
      (g.player.onGround = true → g.player.jumpCount = 0)) ∧
    (∀ (COLS : Int) (tiles : List Tile) (p : Entity),
      (collideWithWorld COLS tiles true p).onGround = true →
        (collideWithWorld COLS tiles true p).jumpCount = 0) := by
  refine ⟨?_, fun COLS tiles p => collideWithWorld_ground_reset COLS tiles p⟩
  have key : JumpInv g.player := by
    induction hr with
    | start => exact ⟨by simp [h0], by simp [hg0]⟩
    | next _ hs ih => exact Step_JumpInv hs ih
  exact ⟨key.1, rfl, key.2⟩

/-- Witness for C1: the state after two jump-key ticks from `initial`. -/
theorem jumpCount_bounded_witness :
    initial.player.jumpCount = 0 ∧ initial.player.onGround = false ∧
    ReachableFrom initial (update ⟨false, true, true⟩ (update ⟨false, false, true⟩ initial)) ∧
    (update ⟨false, true, true⟩ (update ⟨false, false, true⟩ initial)).player.jumpCount
      ≤ MAX_JUMPS :=
  ⟨rfl, rfl, .next (.next .start (.tick _ _)) (.tick _ _),
    (jumpCount_bounded initial _ rfl rfl
      (.next (.next .start (.tick _ _)) (.tick _ _))).1.1⟩

/-- C8: with a jump key pressed, the jump-input step sets `vy = -JUMP = -18`,
`onGround = false` and increments `jumpCount` when the player is grounded or
`jumpCount < MAX_JUMPS`, and leaves the player unchanged when airborne with
`jumpCount = 2`. -/
theorem jumpStep_spec (k : Keys) (p : Entity) (hk : k.jump = true) :
    ((p.onGround = true ∨ p.jumpCount < MAX_JUMPS) →
      jumpStep k p =
        { p with vy := -18, onGround := false, jumpCount := p.jumpCount + 1 }) ∧
    ((p.onGround = false ∧ p.jumpCount = 2) → jumpStep k p = p) := by
  constructor
  · intro h
    have : (p.onGround || decide (p.jumpCount < MAX_JUMPS)) = true := by
      simpa using h
    simp [jumpStep, hk, this, JUMP]
  · rintro ⟨hg, hj⟩
    simp [jumpStep, hk, hg, hj, MAX_JUMPS]

/-- Witness for C8: the grounded player with `jumpCount = 0`. -/
theorem jumpStep_spec_witness :
    (⟨false, false, true⟩ : Keys).jump = true ∧
    (jumpStep ⟨false, false, true⟩ { initial.player with onGround := true }).jumpCount = 1 ∧
    (jumpStep ⟨false, false, true⟩ { initial.player with onGround := true }).vy = -18 :=
  ⟨rfl,
   by rw [(jumpStep_spec ⟨false, false, true⟩ { initial.player with onGround := true } rfl).1
        (Or.inl rfl)]; rfl,
   by rw [(jumpStep_spec ⟨false, false, true⟩ { initial.player with onGround := true } rfl).1
        (Or.inl rfl)]⟩

/-- C2 (as stated, refuted): the player body in `corridorTiles` overlaps
exactly one in-grid solid tile, `(4, 1)`, with the vertical overlap not larger
than the horizontal one and the player not above the tile, so the claim
predicts `y` shifted down by `overlapY` and `onGround = false`; the code then
also resolves against the floor tile `(6, 1)`, ending with `y` unchanged,
`onGround = true` and `jumpCount = 0`. -/
theorem collide_single_overlap_counterexample :
    InGrid 80 ⟨4, 1⟩ ∧ (⟨4, 1⟩ : Tile) ∈ corridorTiles ∧ Overlaps corridorPlayer ⟨4, 1⟩ ∧
    (∀ t ∈ corridorTiles, InGrid 80 t → Overlaps corridorPlayer t → t = ⟨4, 1⟩) ∧
    ¬ (overlapX corridorPlayer 1 < overlapY corridorPlayer 4) ∧
    ¬ (corridorPlayer.y < 4 * TILE) ∧
    (collideWithWorld 80 corridorTiles true corridorPlayer).y = corridorPlayer.y ∧
    (collideWithWorld 80 corridorTiles true corridorPlayer).onGround = true ∧
    (collideWithWorld 80 corridorTiles true corridorPlayer).jumpCount = 0 ∧
    collideWithWorld 80 corridorTiles true corridorPlayer ≠
      resolveOnce true corridorPlayer 4 1 := by
  decide!

/-- C2 (amended): when exactly one in-grid solid tile `(r, c)` has positive
overlap with the entity on both axes, and no other in-grid solid tile has
positive overlap on both axes with the entity as resolved against `(r, c)`,
`collideWithWorld` returns exactly that single resolution along the axis of
smaller overlap (`resolveOnce`). -/
theorem collide_single_tile (COLS : Int) (tiles : List Tile) (isPlayer : Bool) (ent : Entity)
    (r c : Int) (hin : InGrid COLS ⟨r, c⟩) (hmem : (⟨r, c⟩ : Tile) ∈ tiles)
    (hov : Overlaps ent ⟨r, c⟩)
    (huniq : ∀ t ∈ tiles, InGrid COLS t → Overlaps ent t → t = ⟨r, c⟩)
    (hafter : ∀ t ∈ tiles, InGrid COLS t →
      Overlaps (resolveOnce isPlayer ent r c) t → t = ⟨r, c⟩) :
    collideWithWorld COLS tiles isPlayer ent = resolveOnce isPlayer ent r c := by
  obtain ⟨hc, hr⟩ := overlap_in_window ent r c hov
  have noop0 : ∀ r' c', (r' ≠ r ∨ c' ≠ c) →
      resolveTile COLS tiles isPlayer { ent with onGround := false } r' c' =
        { ent with onGround := false } := by
    intro r' c' hne
    apply resolveTile_noop
    rintro ⟨h1, h2, h3⟩
    have := huniq ⟨r', c'⟩ h2 h1 h3
    simp only [Tile.mk.injEq] at this
    omega
  have noop1 : ∀ r' c', (r' ≠ r ∨ c' ≠ c) →
      resolveTile COLS tiles isPlayer (resolveOnce isPlayer ent r c) r' c' =
        resolveOnce isPlayer ent r c := by
    intro r' c' hne
    apply resolveTile_noop
    rintro ⟨h1, h2, h3⟩
    have := hafter ⟨r', c'⟩ h2 h1 h3
    simp only [Tile.mk.injEq] at this
    omega
  unfold collideWithWorld
  dsimp only
  refine foldl_single_active _ _ _ r _ (intRange_nodup _ _) hr ?_ ?_ ?_
  · refine foldl_single_active _ _ _ c _ (intRange_nodup _ _) hc ?_ ?_ ?_
    · exact resolveTile_hit COLS tiles isPlayer ent r c hin hmem hov
    · intro c' _ hne
      exact noop0 r c' (Or.inr hne)
    · intro c' _ hne
      exact noop1 r c' (Or.inr hne)
  · intro r' _ hne
    exact foldl_all_noop _ _ _ (fun c' _ => noop0 r' c' (Or.inl hne))
  · intro r' _ hne
    exact foldl_all_noop _ _ _ (fun c' _ => noop1 r' c' (Or.inl hne))

/-- Witness for C2 (amended): the player sunk into the single floor tile
`(6, 1)` is pushed up onto it. -/
theorem collide_single_tile_witness :
    InGrid 80 ⟨6, 1⟩ ∧ Overlaps sunkPlayer ⟨6, 1⟩ ∧
    collideWithWorld 80 [⟨6, 1⟩] true sunkPlayer = resolveOnce true sunkPlayer 6 1 ∧
    resolveOnce true sunkPlayer 6 1 =
      { sunkPlayer with y := 232, vy := 0, onGround := true, jumpCount := 0 } :=
  ⟨by decide!, by decide!,
   collide_single_tile 80 [⟨6, 1⟩] true sunkPlayer 6 1 (by decide!) (by decide!) (by decide!)
     (by decide!) (by decide!),
   by decide!⟩

/-- C3 (the code at the failing input): the player body at `x = 144`,
`y = 280` overlaps the single solid tile `(6, 3)`; `collideWithWorld` shifts it
right by `overlapX = 40` (its own width) and it still overlaps that tile by 8
horizontally and 48 vertically. -/
theorem collide_embedded_still_overlaps :
    InGrid 80 ⟨6, 3⟩ ∧ Overlaps embeddedPlayer ⟨6, 3⟩ ∧
    collideWithWorld 80 [⟨6, 3⟩] true embeddedPlayer = { embeddedPlayer with x := 184 } ∧
    overlapX (collideWithWorld 80 [⟨6, 3⟩] true embeddedPlayer) 3 = 8 ∧
    overlapY (collideWithWorld 80 [⟨6, 3⟩] true embeddedPlayer) 6 = 48 ∧
    Overlaps (collideWithWorld 80 [⟨6, 3⟩] true embeddedPlayer) ⟨6, 3⟩ := by
  decide!

/-- C4: for an alive enemy whose rectangle, after its patrol move, intersects
the player's: if `player.vy > 0` and `player.y + player.h - e.y < 18` the enemy
dies, `player.vy` becomes `-8`, the score grows by 100 and nothing else changes
(no respawn); otherwise `respawn` is applied and the enemy stays alive. -/
theorem enemyStep_stomp_or_damage (g : Game) (e : Enemy) (ha : e.alive = true)
    (hi : rectIntersect g.player (enemyMove g.COLS g.tiles e) = true) :
    ((g.player.vy > 0 ∧ g.player.y + g.player.h - e.y < 18) →
      enemyStep g e =
        ({ enemyMove g.COLS g.tiles e with alive := false },
         { g with player := { g.player with vy := -8 }, score := g.score + 100 })) ∧
    (¬ (g.player.vy > 0 ∧ g.player.y + g.player.h - e.y < 18) →
      enemyStep g e = (enemyMove g.COLS g.tiles e, respawn g) ∧
      (enemyStep g e).1.alive = true ∧
      (enemyStep g e).2.player.x = max 120 (g.player.x - 320) ∧
      (enemyStep g e).2.player.vx = 0 ∧ (enemyStep g e).2.player.vy = 0 ∧
      (enemyStep g e).2.score = max 0 (g.score - 50)) := by
  have hy : (enemyMove g.COLS g.tiles e).y = e.y := by
    unfold enemyMove
    dsimp only
    split_ifs <;> rfl
  have hal : (enemyMove g.COLS g.tiles e).alive = e.alive := by
    unfold enemyMove
    dsimp only
    split_ifs <;> rfl
  constructor
  · intro h
    unfold enemyStep
    dsimp only
    rw [hy]
    simp [ha, hi, h]
  · intro h
    have h1 : enemyStep g e = (enemyMove g.COLS g.tiles e, respawn g) := by
      unfold enemyStep
      dsimp only
      rw [hy]
      simp only [ha, hi, Bool.not_true, Bool.false_eq_true, if_false, if_true, if_neg h]
    rw [h1]
    exact ⟨rfl, hal.trans ha, rfl, rfl, rfl, rfl⟩

/-- Witness for C4: a falling player 6 units into an enemy stomps it. -/
theorem enemyStep_stomp_or_damage_witness :
    stompEnemy.alive = true ∧
    rectIntersect stompGame.player (enemyMove stompGame.COLS stompGame.tiles stompEnemy) = true ∧
    (enemyStep stompGame stompEnemy).1.alive = false ∧
    (enemyStep stompGame stompEnemy).2.player.vy = -8 ∧
    (enemyStep stompGame stompEnemy).2.score = 100 := by
  have h := (enemyStep_stomp_or_damage stompGame stompEnemy rfl (by decide!)).1 (by decide!)
  refine ⟨rfl, by decide!, ?_, ?_, ?_⟩ <;> (rw [h]; try rfl)

/-- C9 (as stated, refuted): in `ledgeGame` the enemy moves left with
`vx = -0.6` and after its move there is no solid tile just ahead of and below
its leading edge, yet at the end of the tick its `vx` is `-0.6` again: the
ledge check flips it and the wall check, now looking right, flips it back. -/
theorem ledge_flip_counterexample :
    ledgeGame.enemies.map (fun e => (e.alive, e.vx)) = [(true, -0.6)] ∧
    tileAt ledgeGame.COLS ledgeGame.tiles (100 + -0.6 - 4) (100 + 34 + 6) = false ∧
    (update ⟨false, false, false⟩ ledgeGame).enemies.map (fun e => e.vx) = [-0.6] ∧
    (-0.6 : ℚ) ≠ -(-0.6) := by
  decide!

/-- C9 (amended): for an alive enemy moving left (`vx < 0`) such that, after
its move by `vx`, there is no solid tile at `(e.x - 4, e.y + e.h + 6)` and also
no solid tile at `(e.x + e.w + 4, e.y)` (just beyond its right edge at its own
height), the enemy's `vx` at the end of the tick is the negation of its `vx`
at the start, hence positive. -/
theorem ledge_flip (k : Keys) (g : Game) (i : Nat) (e : Enemy)
    (hi : g.enemies[i]? = some e) (ha : e.alive = true) (hv : e.vx < 0)
    (hledge : tileAt g.COLS g.tiles (e.x + e.vx - 4) (e.y + e.h + 6) = false)
    (hwall : tileAt g.COLS g.tiles (e.x + e.vx + (e.w + 4)) e.y = false) :
    ((update k g).enemies[i]?).map (fun e' => e'.vx) = some (-e.vx) ∧ 0 < -e.vx := by
  refine ⟨?_, by linarith⟩
  rw [update_enemy_vx k g i e hi ha, enemyMove_ledge_flip g.COLS g.tiles e hv hledge hwall]

/-- Witness for C9 (amended): the enemy of `openLedgeGame` turns around. -/
theorem ledge_flip_witness :
    ((update ⟨false, false, false⟩ openLedgeGame).enemies[0]?).map (fun e' => e'.vx)
      = some (0.6 : ℚ) := by
  have h := (ledge_flip ⟨false, false, false⟩ openLedgeGame 0
    { x := 100, y := 100, w := 32, h := 34, vx := -0.6, alive := true, type := .goomba }
    rfl rfl (by decide!) (by decide!) (by decide!)).1
  rw [h]
  decide!

/-- C10: in the coin loop of `update` a coin already collected is left as it
is whatever the player's position; `coinCount` grows by exactly the number of
coins whose flag goes from false to true and the score by 10 times that
number; running the loop again on its own result with the same player changes
nothing; and the coins after a whole `update` tick are those the loop left. -/
theorem pickupCoins_idempotent (p : Entity) (cs : List Coin) (score : Int) (n : Nat) :
    (pickupCoins p cs score n).1.length = cs.length ∧
    (∀ (i : Nat) (c : Coin), cs[i]? = some c → c.collected = true →
      (pickupCoins p cs score n).1[i]? = some c) ∧
    (pickupCoins p cs score n).2.2 = n + newlyCollected cs (pickupCoins p cs score n).1 ∧
    (pickupCoins p cs score n).2.1 =
      score + 10 * (newlyCollected cs (pickupCoins p cs score n).1 : Int) ∧
    pickupCoins p (pickupCoins p cs score n).1 (pickupCoins p cs score n).2.1
        (pickupCoins p cs score n).2.2 = pickupCoins p cs score n ∧
    (∀ (k : Keys) (g : Game) (i : Nat) (c : Coin), g.coins[i]? = some c →
      c.collected = true → (update k g).coins[i]? = some c) ∧
    (∀ (k : Keys) (g : Game),
      (update k g).coinCount = g.coinCount + newlyCollected g.coins (update k g).coins) := by
  refine ⟨pickupCoins_length p cs score n,
    fun i c hi hc => pickupCoins_keeps_collected p cs score n i c hi hc,
    (pickupCoins_counts p cs score n).1, (pickupCoins_counts p cs score n).2,
    pickupCoins_idem p cs score n _ _, ?_, ?_⟩
  · intro k g i c hi hc
    obtain ⟨q, s, h1, _⟩ := update_coins k g
    rw [h1]
    exact pickupCoins_keeps_collected q g.coins s g.coinCount i c hi hc
  · intro k g
    obtain ⟨q, s, h1, h2⟩ := update_coins k g
    rw [h1, h2]
    exact (pickupCoins_counts q g.coins s g.coinCount).1

/-- C5 (as stated, refuted): the requested count `-2147483649` clamped to
`[80, 3000]` is 80, but `cols|0` wraps it to `2147483647` first, so `COLS`
becomes 3000 and the tile list holds the ground tile `(8, 2999)`, whose column
is not below the clamped request. -/
theorem cols_wrap_counterexample :
    ∃ g', generateLevel (-2147483649) gapRnd initial = some g' ∧
      g'.COLS = 3000 ∧ max 80 (min 3000 (-2147483649 : Int)) = 80 ∧
      (⟨8, 2999⟩ : Tile) ∈ g'.tiles ∧
      ¬ ((2999 : Int) < max 80 (min 3000 (-2147483649 : Int))) := by
  obtain ⟨g', grid, h1, h2, h3, h4⟩ := generateLevel_spec (-2147483649) gapRnd initial
  have hc : clampCols (-2147483649) = 3000 := by decide
  rw [hc] at h2 h3 h4
  refine ⟨g', h1, h2, by decide, ?_, by decide⟩
  rw [h3, mem_flatten_grid]
  exact ⟨by decide, h4 2999 (by decide) (by decide) (Or.inr (by decide))⟩

/-- C5 (amended): for every requested column count, random outcome and prior
state, `generateLevel` returns, `COLS` becomes the requested count converted
to a signed 32-bit integer (`cols|0`) and then clamped to `[80, 3000]` (for a
request within the signed 32-bit range, the request clamped to `[80, 3000]`),
and every entry `{r, c}` of the tile list satisfies `0 ≤ r < ROWS` and
`0 ≤ c < COLS`. -/
theorem generateLevel_tiles_in_grid (cols : Int) (rnd : Rand) (g : Game) :
    ∃ g', generateLevel cols rnd g = some g' ∧
      g'.COLS = max 80 (min 3000 (toInt32 cols)) ∧
      (-2 ^ 31 ≤ cols ∧ cols < 2 ^ 31 → g'.COLS = max 80 (min 3000 cols)) ∧
      80 ≤ g'.COLS ∧ g'.COLS ≤ 3000 ∧
      ∀ t ∈ g'.tiles, 0 ≤ t.r ∧ t.r < ROWS ∧ 0 ≤ t.c ∧ t.c < g'.COLS := by
  obtain ⟨g', grid, h1, h2, h3, _⟩ := generateLevel_spec cols rnd g
  refine ⟨g', h1, h2, ?_, ?_, ?_, ?_⟩
  · intro hc
    rw [h2]
    unfold clampCols toInt32
    omega
  · rw [h2]; exact (clampCols_bounds cols).1
  · rw [h2]; exact (clampCols_bounds cols).2
  · intro t ht
    rw [h3] at ht
    rw [h2]
    exact ((mem_flatten_grid _ _ t).1 ht).1

/-- C6 (as stated, refuted): with 80 columns and the outcome `gapRnd` a gap of
length 2 is cut at column 20 and another right after it at column 22, so the
ground row `ROWS - 2 = 8` has tiles at columns 19 and 24 and none at the four
columns 20..23 in between. -/
theorem ground_gaps_counterexample :
    ∃ g', generateLevel 80 gapRnd initial = some g' ∧
      (g'.COLS = 80 ∧ (⟨ROWS - 2, 19⟩ : Tile) ∈ g'.tiles ∧
       (⟨ROWS - 2, 20⟩ : Tile) ∉ g'.tiles ∧ (⟨ROWS - 2, 21⟩ : Tile) ∉ g'.tiles ∧
       (⟨ROWS - 2, 22⟩ : Tile) ∉ g'.tiles ∧ (⟨ROWS - 2, 23⟩ : Tile) ∉ g'.tiles ∧
       (⟨ROWS - 2, 24⟩ : Tile) ∈ g'.tiles) :=
  exists_of_map_decide _ _ (by decide!)

/-- C6 (amended): the ground row `ROWS - 2` is tiled except for the gaps cut
by the ground loop.  Each cut gap (`cutGaps`) has length 1 or 2 and starts at a
column `13 .. COLS - 13`; the ground loop marks exactly the ground-row columns
of the grid that lie in no cut gap; every such column holds a tile in the
generated level; in particular every column `c ≤ 12` and every column
`c ≥ COLS - 11` holds a tile.  (Gaps may follow one another immediately, so
nothing bounds the length of a run of columns without a tile by 2.) -/
theorem ground_row_tiled_except_gaps (cols : Int) (rnd : Rand) (g : Game) :
    ∃ (g' : Game) (s1 : Gen), generateLevel cols rnd g = some g' ∧
      groundLoop g'.COLS rnd (g'.COLS.toNat + 1) 0 { k := 0, grid := [], coins := [] }
        = some s1 ∧
      (∀ gp ∈ cutGaps g'.COLS rnd,
        (gp.2 = 1 ∨ gp.2 = 2) ∧ 12 < gp.1 ∧ gp.1 < g'.COLS - 12) ∧
      (∀ t : Tile, t ∈ s1.grid ↔
        t.r = ROWS - 2 ∧ 0 ≤ t.c ∧ t.c < g'.COLS ∧ ¬ Covered (cutGaps g'.COLS rnd) t.c) ∧
      (∀ c : Int, 0 ≤ c → c < g'.COLS → ¬ Covered (cutGaps g'.COLS rnd) c →
        (⟨ROWS - 2, c⟩ : Tile) ∈ g'.tiles) ∧
      (∀ c : Int, 0 ≤ c → c < g'.COLS → (c ≤ 12 ∨ g'.COLS - 11 ≤ c) →
        (⟨ROWS - 2, c⟩ : Tile) ∈ g'.tiles) := by
  obtain ⟨g', s1, grid, h1, h2, h3, h4, h5⟩ := generateLevel_ground cols rnd g
  obtain ⟨s1', k1, k2, k3⟩ := groundLoop_gaps (clampCols cols) rnd
    ((clampCols cols).toNat + 1) 0 { k := 0, grid := [], coins := [] } (by omega)
  rw [h4] at k1
  simp only [Option.some.injEq] at k1
  subst k1
  have hgaps : ∀ gp ∈ cutGaps (clampCols cols) rnd,
      (gp.2 = 1 ∨ gp.2 = 2) ∧ 12 < gp.1 ∧ gp.1 < clampCols cols - 12 :=
    fun gp hgp => (k2 gp hgp).2
  have hgrid : ∀ t : Tile, t ∈ s1.grid ↔
      t.r = ROWS - 2 ∧ 0 ≤ t.c ∧ t.c < clampCols cols ∧
        ¬ Covered (cutGaps (clampCols cols) rnd) t.c := by
    intro t
    rw [k3 t]
    simp only [List.not_mem_nil, false_or]
    rfl
  have htiled : ∀ c : Int, 0 ≤ c → c < clampCols cols →
      ¬ Covered (cutGaps (clampCols cols) rnd) c →
      (⟨ROWS - 2, c⟩ : Tile) ∈ g'.tiles := by
    intro c hc0 hc1 hcov
    rw [h3, mem_flatten_grid]
    refine ⟨⟨by simp [ROWS], by simp [ROWS], hc0, hc1⟩, h5 _ ?_⟩
    exact (hgrid ⟨ROWS - 2, c⟩).2 ⟨rfl, hc0, hc1, hcov⟩
  refine ⟨g', s1, h1, ?_⟩
  rw [h2]
  refine ⟨h4, hgaps, hgrid, htiled, ?_⟩
  intro c hc0 hc1 hc2
  refine htiled c hc0 hc1 ?_
  rintro ⟨gp, hgp, a1, a2⟩
  have := hgaps gp hgp
  omega

/-- C7 (the code at the failing input): with 80 columns and the outcome
`platformRnd`, the floating-platform branch at `x = 71` computes the column
`71 + 15 = 86 ≥ COLS` and pushes a coin there: the generated coin list holds
the coin of column 86, whose `floor(x / TILE)` is 86, outside `[0, COLS)`. -/
theorem platform_coin_outside_grid :
    ∃ g', generateLevel 80 platformRnd initial = some g' ∧
      (g'.COLS = 80 ∧ coinAt 86 5 ∈ g'.coins ∧ ⌊(coinAt 86 5).x / TILE⌋ = 86 ∧
        ∃ c ∈ g'.coins, g'.COLS ≤ ⌊c.x / TILE⌋) := by
  obtain ⟨g', h1, h2, h3, h4⟩ :=
    exists_of_map_decide (generateLevel 80 platformRnd initial)
      (fun g' => g'.COLS = 80 ∧ coinAt 86 5 ∈ g'.coins ∧ ⌊(coinAt 86 5).x / TILE⌋ = 86)
      (by decide!)
  exact ⟨g', h1, h2, h3, h4, coinAt 86 5, h3, by rw [h2, h4]; decide⟩

/-! ## Respawn and horizontal speed -/

theorem clampVx_bounds (v : ℚ) : -MAXVX ≤ clampVx v ∧ clampVx v ≤ MAXVX := by
  unfold clampVx
  refine ⟨le_max_left _ _, max_le ?_ (min_le_left _ _)⟩
  simp [MAXVX]

theorem VxBounded_zero (p : Entity) (h : p.vx = 0) : VxBounded p := by
  unfold VxBounded
  rw [h]
  simp [MAXVX]

theorem resolveTile_VxBounded (COLS : Int) (tiles : List Tile) (b : Bool) (e : Entity)
    (r c : Int) (h : VxBounded e) : VxBounded (resolveTile COLS tiles b e r c) := by
  unfold resolveTile
  dsimp only
  split_ifs
  all_goals first
    | exact h
    | exact VxBounded_zero _ rfl

theorem collideWithWorld_VxBounded (COLS : Int) (tiles : List Tile) (b : Bool) (ent : Entity)
    (h : VxBounded ent) : VxBounded (collideWithWorld COLS tiles b ent) :=
  collideWithWorld_invariant VxBounded COLS tiles b
    (fun e r c he => resolveTile_VxBounded COLS tiles b e r c he) ent h

theorem fellStep_VxBounded (g : Game) (h : VxBounded g.player) :
    VxBounded (fellStep g).player := by
  unfold fellStep
  split_ifs
  · exact VxBounded_zero _ rfl
  · exact h

theorem enemyStep_VxBounded (g : Game) (e : Enemy) (h : VxBounded g.player) :
    VxBounded (enemyStep g e).2.player := by
  unfold enemyStep
  dsimp only
  split_ifs
  all_goals first
    | exact h
    | exact VxBounded_zero _ rfl

theorem enemiesLoop_VxBounded (es : List Enemy) (g : Game) (h : VxBounded g.player) :
    VxBounded (enemiesLoop es g).2.player := by
  induction es generalizing g with
  | nil => exact h
  | cons e es ih =>
    simp only [enemiesLoop]
    exact ih _ (enemyStep_VxBounded g e h)

theorem frictionClampStep_VxBounded (p : Entity) : VxBounded (frictionClampStep p) :=
  clampVx_bounds (applyFriction p.vx)

theorem update_VxBounded (k : Keys) (g : Game) : VxBounded (update k g).player := by
  have h1 : VxBounded (integrateStep (frictionClampStep
      (jumpStep k (inputStep k g).player))) := frictionClampStep_VxBounded _
  unfold update enemyPhase playerPhase
  dsimp only
  refine enemiesLoop_VxBounded _ _ ?_
  rw [coinStep_player]
  unfold movePhase
  dsimp only
  exact collideWithWorld_VxBounded _ _ _ _ (fellStep_VxBounded _ h1)

/-- C11: for every state, after `respawn` the score equals
`max(0, score - 50)` and is not below zero, `player.x` equals
`max(120, x - 320)` and is not negative (it is at least 120), and `player.vx`
and `player.vy` are 0. -/
theorem respawn_bounds (g : Game) :
    (respawn g).score = max 0 (g.score - 50) ∧ 0 ≤ (respawn g).score ∧
    (respawn g).player.x = max 120 (g.player.x - 320) ∧ 0 ≤ (respawn g).player.x ∧
    120 ≤ (respawn g).player.x ∧
    (respawn g).player.vx = 0 ∧ (respawn g).player.vy = 0 := by
  have hx : (120 : ℚ) ≤ max 120 (g.player.x - 320) := le_max_left _ _
  refine ⟨rfl, le_max_left _ _, rfl, ?_, hx, rfl, rfl⟩
  exact le_trans (by norm_num) hx

/-- C12: for every state and key input, `player.vx` lies in
`[-MAXVX, MAXVX] = [-7, 7]` right after the friction/clamp step of `update`,
and still does at the end of the tick. -/
theorem vx_clamped (k : Keys) (g : Game) (p : Entity) :
    MAXVX = 7 ∧
    (-7 ≤ (frictionClampStep p).vx ∧ (frictionClampStep p).vx ≤ 7) ∧
    (-7 ≤ (frictionClampStep (jumpStep k (inputStep k g).player)).vx ∧
      (frictionClampStep (jumpStep k (inputStep k g).player)).vx ≤ 7) ∧
    (-7 ≤ (update k g).player.vx ∧ (update k g).player.vx ≤ 7) :=
  ⟨rfl, frictionClampStep_VxBounded p, frictionClampStep_VxBounded _, update_VxBounded k g⟩

end Mario
